import Mathlib

set_option maxRecDepth 100000

/-!
Consistent hashing ring (`main.go`).

A shallow embedding of the hash ring controller of `main.go` and the
properties of its two operations, `AddNode` and `GetNode`.

Modelling conventions
* A Go `string` / `[]byte` is a list of bytes, each byte a natural number below 256.
* A Go `uint32` is a natural number; `crc32.ChecksumIEEE` is computed bit by bit.
* A Go `int` is an integer of the 64-bit platforms; the product in `AddNode`
  wraps around in two's complement (`wrapInt`).
* `map[uint32]Node` is a function from positions to `Option N`, where `none`
  is the nil interface value a Go map lookup gives for an absent key.
* A run-time panic is an `Except.error`; the locks are not modelled (every
  theorem is about sequential runs).
-/

namespace ConsistentHashing

/-! ## Strings, integers and the hash function -/

/-- A Go string: an immutable sequence of bytes. -/
abbrev GoString := List Nat

/-- The two's complement wrap-around of Go's 64-bit `int` arithmetic. -/
def wrapInt (x : Int) : Int := (x + 2 ^ 63) % 2 ^ 64 - 2 ^ 63

/-- The digits loop of `strconv.Itoa`: most significant digit first, as ASCII bytes. -/
def natDecAux : Nat → Nat → List Nat → List Nat
  | 0, _, acc => acc
  | fuel + 1, n, acc =>
    if n < 10 then (48 + n) :: acc
    else natDecAux fuel (n / 10) ((48 + n % 10) :: acc)

/-- The decimal representation of a natural number, as ASCII bytes. -/
def natDec (n : Nat) : GoString := natDecAux (n + 1) n []

/-- Go's `strconv.Itoa`: the decimal representation, with a leading `-` (byte 45)
for a negative number. -/
def Itoa (n : Int) : GoString :=
  if n < 0 then 45 :: natDec n.natAbs else natDec n.toNat

/-- One bit step of the reflected CRC-32 with the IEEE polynomial `0xEDB88320`. -/
def crcBit (x : Nat) : Nat :=
  if x % 2 = 1 then (x >>> 1) ^^^ 0xEDB88320 else x >>> 1

/-- One byte step of CRC-32: xor the byte into the low bits, then eight bit steps. -/
def crcByte (crc b : Nat) : Nat :=
  crcBit (crcBit (crcBit (crcBit (crcBit (crcBit (crcBit (crcBit (crc ^^^ (b % 256)))))))))

/-- Go's `crc32.ChecksumIEEE`. -/
def ChecksumIEEE (data : GoString) : Nat :=
  (data.foldl crcByte 0xFFFFFFFF) ^^^ 0xFFFFFFFF

/-! ## Nodes -/

/-- The `Node` interface: what can be added to the ring. -/
class Node (N : Type) where
  /-- The distinguishing string of replica `i`. -/
  JoinStr : N → Int → GoString
  /-- The weight of the node. -/
  Weight : N → Int

/-- The `Server` struct. -/
structure Server where
  weight : Int
  Id : Int
  Ip : GoString
  Port : Int
deriving DecidableEq, Repr

/-- The method `Server.JoinStr`: `Id-Ip:Port-weight-i` (45 is `-`, 58 is `:`). -/
def Server.JoinStr (s : Server) (i : Int) : GoString :=
  Itoa s.Id ++ [45] ++ s.Ip ++ [58] ++ Itoa s.Port ++ [45] ++ Itoa s.weight ++ [45] ++ Itoa i

/-- The method `Server.Weight`. -/
def Server.Weight (s : Server) : Int := s.weight

instance : Node Server where
  JoinStr := Server.JoinStr
  Weight := Server.Weight

/-! ## The controller -/

/-- The sorted ring of hashed positions (`type hashRing []uint32`). -/
abbrev hashRing := List Nat

end ConsistentHashing

/-- The controller state: the ring, the position to node mapping and the
replica count (the embedded `sync.RWMutex` is not modelled). -/
structure ConsistentHashing (N : Type) where
  ring : ConsistentHashing.hashRing
  Nodes : Nat → Option N
  ReplicaCount : Int

namespace ConsistentHashing

variable {N : Type}

/-- What a run of the model can end in instead of a value. -/
inductive Fault where
  /-- Go's run-time panic `index out of range`. -/
  | indexOutOfRange
  /-- The loop bound of the model of `sort.Search` ran out (see `Search_ring`:
  it never does). -/
  | outOfFuel
deriving DecidableEq, Repr

/-- The constructor `NewConsistentHashing`. -/
def NewConsistentHashing (repCounts : Int) : ConsistentHashing N :=
  { ring := [], Nodes := fun _ => none, ReplicaCount := repCounts }

/-- The method `hash`. -/
def hash (s : GoString) : Nat := ChecksumIEEE s

/-- The body of the loop of `AddNode` at index `i`: map the hashed replica key
to the node and append it to the ring. -/
def addReplica [Node N] (node : N) (c : ConsistentHashing N) (i : Nat) : ConsistentHashing N :=
  let hashKey := hash (Node.JoinStr node (i : Int))
  { c with
    Nodes := fun p => if p = hashKey then some node else c.Nodes p
    ring := c.ring ++ [hashKey] }

/-- The method `AddNode`: `count` replicas are added for `i = 0, ..., count - 1`
(none when `count <= 0`), then the ring is sorted (`sort.Sort`). -/
def AddNode [Node N] (c : ConsistentHashing N) (node : N) : ConsistentHashing N :=
  let count := wrapInt (Node.Weight node * c.ReplicaCount)
  let c1 := (List.range count.toNat).foldl (addReplica node) c
  { c1 with ring := c1.ring.insertionSort (· ≤ ·) }

/-- The slice index expression `h[i]`, which panics out of range. -/
def index (h : hashRing) (i : Nat) : Except Fault Nat :=
  match h[i]? with
  | some v => .ok v
  | none => .error .indexOutOfRange

/-- The loop of Go's `sort.Search` on the interval `[i, j)`. -/
def searchLoop (f : Nat → Except Fault Bool) : Nat → Nat → Nat → Except Fault Nat
  | fuel, i, j =>
    if i < j then
      match fuel with
      | 0 => .error .outOfFuel
      | fuel + 1 =>
        let h := (i + j) / 2
        match f h with
        | .error e => .error e
        | .ok b => if !b then searchLoop f fuel (h + 1) j else searchLoop f fuel i h
    else .ok i

/-- Go's `sort.Search`: binary search for the smallest index in `[0, n)` at
which `f` holds, `n` if there is none. -/
def Search (n : Nat) (f : Nat → Except Fault Bool) : Except Fault Nat :=
  searchLoop f n 0 n

/-- The method `GetNode`. -/
def GetNode (c : ConsistentHashing N) (key : GoString) : Except Fault (Option N) :=
  let hashKey := ChecksumIEEE key
  let n := c.ring.length
  match Search n (fun i => (index c.ring i).map (fun v => decide (v ≥ hashKey))) with
  | .error e => .error e
  | .ok i =>
    if i < n then (index c.ring i).map c.Nodes
    else (index c.ring 0).map c.Nodes

/-- The controller after `NewConsistentHashing(repCounts)` and one `AddNode`
call for each node of `nodes`, in order. -/
def build [Node N] (repCounts : Int) (nodes : List N) : ConsistentHashing N :=
  nodes.foldl AddNode (NewConsistentHashing repCounts)

/-- The positions one `AddNode(node)` call hashes, in loop order. -/
def replicaPositions [Node N] (c : ConsistentHashing N) (node : N) : List Nat :=
  (List.range (wrapInt (Node.Weight node * c.ReplicaCount)).toNat).map
    (fun i : Nat => hash (Node.JoinStr node (i : Int)))

/-- The position that owns the hash `x` on a ring: the smallest position at or
above `x`, or the smallest position of all when every position is below `x`. -/
def IsSuccessor (ring : hashRing) (x p : Nat) : Prop :=
  p ∈ ring ∧
    ((x ≤ p ∧ ∀ q ∈ ring, x ≤ q → p ≤ q) ∨ ((∀ q ∈ ring, q < x) ∧ ∀ q ∈ ring, p ≤ q))

/-- The servers of `main`: weight 1, the given id, address `192.168.0.` followed
by the id, port 1080. -/
def demoServer (i : Int) : Server :=
  { weight := 1, Id := i, Ip := [49, 57, 50, 46, 49, 54, 56, 46, 48, 46] ++ Itoa i, Port := 1080 }

/-- A server whose weight `2^62`, times a replica count of 2, is `2^63`: one more
than the largest Go `int`. -/
def heavyServer : Server :=
  { weight := 4611686018427387904, Id := 1, Ip := [49, 57, 50, 46, 49, 54, 56, 46, 48, 46, 49],
    Port := 1080 }

/-- A server whose negative weight `-(2^63 - 1)`, times a replica count of 2, is
`-2^64 + 2`, which Go's `int` holds as `2`. -/
def negativeServer : Server :=
  { weight := -9223372036854775807, Id := 1,
    Ip := [49, 57, 50, 46, 49, 54, 56, 46, 48, 46, 49], Port := 1080 }

/-- The number a string of ASCII decimal digits stands for. -/
def decVal (l : List Nat) : Nat := l.foldl (fun a d => 10 * a + (d - 48)) 0

/-- The statements of `GetNode` that follow `c.RLock()`, run on the state `c` the
lock gives access to, with `n` the ring length read before the lock was taken. -/
def GetNodeLocked (n : Nat) (c : ConsistentHashing N) (key : GoString) :
    Except Fault (Option N) :=
  let hashKey := ChecksumIEEE key
  match Search n (fun i => (index c.ring i).map (fun v => decide (v ≥ hashKey))) with
  | .error e => .error e
  | .ok i =>
    if i < n then (index c.ring i).map c.Nodes
    else (index c.ring 0).map c.Nodes

/-- One `AddNode(node)` call from `c` to `c1`, with `sort.Sort` taken by its contract
only: the loop runs as written and the ring it leaves is put in some ascending order. -/
def AddNodeStep [Node N] (c : ConsistentHashing N) (node : N) (c1 : ConsistentHashing N) : Prop :=
  c1.ring.Sorted (· ≤ ·)
    ∧ c1.ring.Perm
        ((List.range (wrapInt (Node.Weight node * c.ReplicaCount)).toNat).foldl
          (addReplica node) c).ring
    ∧ c1.Nodes
        = ((List.range (wrapInt (Node.Weight node * c.ReplicaCount)).toNat).foldl
          (addReplica node) c).Nodes
    ∧ c1.ReplicaCount = c.ReplicaCount

/-- The controllers that `NewConsistentHashing(repCounts)` followed by one `AddNode`
call for each node of the list, in order, can leave. -/
inductive Runs [Node N] (repCounts : Int) : List N → ConsistentHashing N → Prop where
  | new : Runs repCounts [] (NewConsistentHashing repCounts)
  | add (nodes : List N) (node : N) (c c1 : ConsistentHashing N) :
      Runs repCounts nodes c → AddNodeStep c node c1 → Runs repCounts (nodes ++ [node]) c1

/-- The smallest Go `int`, as a weight: `-2^63`. -/
def minIntServer : Server :=
  { weight := -9223372036854775808, Id := 1,
    Ip := [49, 57, 50, 46, 49, 54, 56, 46, 48, 46, 49], Port := 1080 }

/-- The keys of `main`: `fmt.Sprintf("ke123456y%d", i)`. -/
def demoKey (i : Nat) : GoString := [107, 101, 49, 50, 51, 52, 53, 54, 121] ++ Itoa i

/-- The servers `main` adds, in order: `for i := 1; i < 20; i++`. -/
def demoServers : List Server := (List.range 19).map (fun i : Nat => demoServer ((i : Int) + 1))

/-- The hashed replica keys of the 19 servers of `main` with 100 replicas each, server
by server in loop order (see `demoPositions_eq`). -/
def demoPositions : List (List Nat) :=
  [
    [2311530428, 4274001706, 1741244048, 281966086, 2393564069, 4188918579, 1621394057,
      396603935, 2266804110, 4028342040, 798938848, 1486481014, 3247486924, 3063383898,
      687018745, 1609835119, 3338499029, 2985968451, 558194386, 1447194180, 78873891,
      1941222837, 3938313231, 2646267033, 64897338, 1960407468, 3989839894, 2597785728,
      174591249, 2104442247, 497595490, 1789887732, 4087797070, 2225202648, 449147003,
      1841447149, 4106948951, 2211193281, 326319184, 1685327046, 1391010469, 636359219,
      3169272713, 3420484383, 1434773180, 579065386, 3146418064, 3431839494, 1546824343,
      724933121, 1274156004, 1022698354, 2784785096, 3539681886, 1285543933, 999876459,
      2727458513, 3583411783, 1160354774, 841919296, 1625243687, 400060593, 2396070155,
      4191555997, 1739752510, 280343720, 2310858002, 4273722756, 1845807125, 419690627,
      2042917222, 247677424, 2546602058, 3771539676, 2125051263, 162432489, 2426917971,
      3886081221, 1998584148, 1624514, 4267470249, 2304466239, 273812613, 1733639187,
      4180781488, 2385942822, 390056092, 1614346250, 4035437979, 2273367309, 3880213736,
      2420141182, 155794884, 2119044434, 3760888049, 2536351847, 237304285, 2032388427,
      3919369434, 2661016652],
    [1535652351, 747569513, 3045478611, 3263258693, 1558574566, 736281968, 3001783498,
      3320620124, 1431550413, 575965531, 3231287772, 3080632650, 781707504, 1502664806,
      3354676677, 2968747347, 704261353, 1593646207, 3460432366, 3108319608, 3954498079,
      2629036681, 96123699, 1925024677, 3973651974, 2615029392, 47677226, 1976586172,
      3849277997, 2456314555, 4071615326, 2242436040, 480348786, 1806088932, 4123144007,
      2193956817, 466374251, 1825275645, 4235486060, 2339591162, 3186523545, 3404287247,
      1407196341, 619129891, 3129194880, 3448015126, 1418582188, 596305978, 3006657963,
      3291661629, 2767539416, 3555884110, 1257975284, 1039932770, 2744682689, 3567237207,
      1301735917, 982636923, 2855191786, 3710514300, 2413305627, 4175376269, 1641446967,
      382815905, 2293619458, 4289915796, 1723578926, 297568952, 2164496169, 4127500223,
      2529373786, 3787726540, 2026721142, 264929248, 2444159555, 3869891285, 2141227887,
      145210361, 2551752296, 4011824894, 291189397, 1717305859, 4283782073, 2287100719,
      372700812, 1630651930, 4164458400, 2403313462, 528530087, 1753713201, 138413012,
      2135372610, 3863896824, 2437501550, 254658509, 2016081755, 3777210081, 2518980215,
      110857190, 1906097008],
    [2741124609, 3563392663, 1298947885, 980119483, 2752510488, 3540568718, 1241619252,
      1023847330, 2914629171, 3669919397, 2590293192, 3982724190, 1953160676, 57535858,
      2634643665, 3926804551, 1929845245, 67119467, 2495558906, 3820487788, 2974412555,
      3327057821, 1598524967, 675331761, 3055823634, 3240303492, 1479166526, 791509672,
      3214042937, 3365230511, 2824003146, 3746950876, 1180483430, 828084208, 2940148307,
      3627559621, 1093761919, 909528041, 2794018424, 3515770606, 3876800653, 2417260571,
      152906145, 2115639607, 3766389908, 2541337602, 242281912, 2037898542, 3922247871,
      2664427561, 4261968332, 2299480410, 268835040, 1728129142, 4184194517, 2388823363,
      392944889, 1617751151, 4040421886, 2278867304, 3575982607, 2720144025, 992693027,
      1277983669, 3527994902, 2773474944, 1011257146, 1262600108, 3690897981, 2902037163,
      3426622286, 3141086168, 573602402, 1429687028, 3411271511, 3159683009, 626900603,
      1381666541, 3269825404, 3051529194, 1269172097, 1017198359, 2779276973, 3534706235,
      1288422296, 1003287310, 2730861236, 3586298402, 1165856691, 846905125, 1388132032,
      632948310, 3165870060, 3417597818, 1439757017, 584565327, 3151926261, 3436815203,
      1550237426, 727813732],
    [610736952, 1398811566, 3395910164, 3178121858, 587915041, 1410199479, 3439640077,
      3120795291, 717001482, 1572578204, 3320197605, 3001090419, 736645321, 1559191647,
      3263952380, 3045901674, 746951888, 1535288390, 3409820119, 3157952833, 4006306342,
      2580304560, 12911370, 2009215900, 3920012863, 2661389993, 128501523, 1890580357,
      3759204884, 2534922882, 4157625191, 2161599473, 433992267, 1859715805, 4038956926,
      2277156840, 515110482, 1773455044, 4178303829, 2383211459, 3096561056, 3482776886,
      1453302924, 563647514, 3220963769, 3371905327, 1374838933, 653611011, 3058322834,
      3243080964, 2710238433, 3599615095, 1334089165, 948151643, 2800169208, 3521118318,
      1223250388, 1072587074, 2941353171, 3629534277, 2326243106, 4255160244, 1688847886,
      330233496, 2378851131, 4207760301, 1673789975, 348336769, 2222731024, 4084932486,
      2478610019, 3837503221, 2108880719, 179685337, 2496746106, 3822478060, 2061448022,
      232260544, 2640780881, 3932171975, 337939116, 1663285818, 4197116800, 2368592662,
      323571381, 1682865699, 4249300889, 2319458063, 452919966, 1844982280, 222280685,
      2050526075, 3811695297, 2486626903, 173178868, 2102742882, 3831242456, 2472226382,
      65287135, 1961034569],
    [3700233414, 2877957200, 847476202, 1166296444, 3688943839, 2900877385, 904835571,
      1122599269, 3528891636, 2773593186, 2669348081, 3894162535, 1897227741, 101864779,
      2557919464, 4017221758, 1987617220, 25137490, 2445315267, 3871849557, 3023460146,
      3274794916, 1513633310, 759105160, 3009123115, 3294405565, 1565913607, 710066833,
      3136151296, 3454726038, 2905433715, 3660207845, 1126369119, 874788809, 2856362602,
      3712455420, 1146012486, 860484560, 2750869057, 3572621015, 3798790324, 2506866722,
      207786392, 2070257934, 3842061485, 2449867835, 185554305, 2080924951, 3971446918,
      2612021264, 4218929653, 2356212067, 360292569, 1652461647, 4229563884, 2333947258,
      303326400, 1695765590, 4121708999, 2192275793, 3495596598, 2807931552, 1045754650,
      1230226316, 3610727983, 2687526585, 960050947, 1312688021, 3733002756, 2844142226,
      3376522103, 3192296417, 659538523, 1346958029, 3459016558, 3106625528, 539100738,
      1462056660, 3348769605, 2963086291, 1322893240, 970886958, 2698501780, 3620793858,
      1236564897, 1051937591, 2813991565, 3502058011, 1073887114, 923076380, 1472368377,
      549830255, 3117215701, 3469467459, 1353665248, 665352822, 3198233548, 3383106394,
      1494812363, 773731933],
    [247595653, 2042966547, 3771491241, 2546684735, 162514588, 2125002250, 3886131120,
      2426836774, 1673911, 1998502433, 1880906701, 119237467, 2651994849, 3910470263,
      2003935188, 7778114, 2575302392, 4000894574, 2127025151, 163636073, 1529939982,
      741750936, 3040831778, 3258472884, 1549585431, 727448705, 2991762747, 3310722477,
      1441431612, 586002602, 1110063439, 892144089, 2888063075, 3676530933, 1162345814,
      843107776, 2873728122, 3696143596, 1290908029, 1006010859, 225161096, 2053938974,
      3815100068, 2489515570, 168192913, 2097240839, 3825732285, 2467248683, 61876154,
      1958156076, 342925001, 1668787807, 4202627045, 2373570419, 320690896, 1679452742,
      4245896188, 2316569450, 447420155, 1839998573, 1063111946, 1213922716, 3511921702,
      2790562992, 942672147, 1329019269, 3594414143, 2704890025, 830883128, 1182889390,
      642186315, 1363266781, 3360202087, 3209670129, 556480594, 1445726404, 3475331454,
      3089263080, 681407609, 1603945711, 2715738244, 3604598802, 1339064744, 953659710,
      2796758173, 3518239755, 1220363697, 1069184295, 2936367286, 3624032288, 3099972037,
      3485655379, 1456189673, 567050367, 3215463900, 3366921546, 1369863408, 648103014,
      3055442423, 3239668065],
    [4129820027, 2167356909, 405171287, 1864457409, 4047882594, 2252536308, 525051982,
      1749850328, 4176708937, 2415179231, 719417049, 1575378511, 3304001525, 3018342243,
      764193472, 1519098454, 3280129004, 3028679546, 607839979, 1396561533, 30162202,
      1993018764, 4022492214, 2563075232, 111278339, 1906755989, 3903821871, 2678630585,
      253211944, 2014348734, 416746587, 1875918029, 4141444471, 2178833889, 532334658,
      1757280468, 4055148910, 2259917304, 369919081, 1628157183, 1469487772, 546417162,
      3113810864, 3466578726, 1358651013, 670854675, 3203743657, 3388084031, 1498223278,
      776610360, 1317907421, 965385035, 2692991729, 3615816295, 1239445444, 1055350610,
      2817396456, 3504946814, 1079387119, 928060281, 1705048094, 312985736, 2343475506,
      4238977444, 1657617415, 365563025, 2361613611, 4223954365, 1803251756, 477905082,
      2092681567, 196934089, 2461378675, 3853687013, 2077625670, 215039440, 2513988714,
      3806289148, 1918910829, 90665467, 4213429648, 2351228166, 355316924, 1646953514,
      4232974729, 2336825631, 306213029, 1699168307, 4126694818, 2197777716, 3795379409,
      2503988295, 204899837, 2066855275, 3847561416, 2454851678, 190530020, 2086433138,
      3974327523, 2615434357],
    [3686354614, 2898165280, 901197722, 1118838540, 3704916655, 2882779705, 853207939,
      1172167445, 3580020356, 2724591122, 3474538903, 3089002753, 555163835, 1443893293,
      3363079566, 3212031256, 645588130, 1367200820, 3250768293, 3066427699, 3828617812,
      2469601986, 171602808, 2101167086, 3814315597, 2489247451, 223852385, 2052098039,
      3941571174, 2649271024, 4247724821, 2317882243, 320946745, 1680241327, 4198688524,
      2370164634, 340559392, 1665906358, 4092898087, 2230557617, 2993599954, 3312026948,
      1549849854, 728228968, 3036901835, 3255058781, 1527582951, 738861169, 3165994464,
      3417443702, 2876605587, 3698504709, 1165747647, 847041833, 2887270538, 3676270620,
      1108746662, 890310960, 2779647137, 3534306359, 2153305936, 4150257606, 1851176572,
      424773354, 2268402505, 4029817823, 1765503589, 507265779, 2390974306, 4186206196,
      2571363857, 3997488775, 2001569597, 4896683, 2653823496, 3911783070, 1881162532,
      120026034, 2543349283, 3768540853, 517733086, 1776077384, 4040530930, 2278730596,
      431374023, 1857097297, 4156055531, 2160029565, 268464876, 1728529018, 130075551,
      1892154121, 3922635443, 2664012325, 11341702, 2007645968, 4003688106, 2577686076,
      152781741, 2115793723],
    [592658760, 1414820318, 3445432420, 3126464754, 608077137, 1396291015, 3392201853,
      3174552811, 763939194, 1519385068, 2514777219, 3806544917, 2078938543, 216868153,
      2458497178, 3851321356, 2089275830, 192995616, 2604661937, 3963145255, 3200853824,
      3385726934, 1355236972, 666924794, 3114591065, 3466843087, 1470792309, 548254435,
      2954014578, 3340083172, 2815563265, 3503629975, 1239185197, 1054558139, 2696925720,
      3619218062, 1320268596, 968262562, 2835979827, 3725504165, 3901980870, 2677321808,
      111010282, 1905971580, 4026418399, 2566485065, 32515571, 1995904357, 3863480564,
      2437888098, 4052267399, 2257551633, 528928939, 1753342013, 4142232990, 2179089672,
      418059442, 1877746724, 4283644341, 2287208739, 3668304452, 2913129170, 883655528,
      1135391742, 3720881757, 2865698507, 868632433, 1153529831, 3565054582, 2742639328,
      3284062981, 3032081299, 766554665, 1521975999, 3302168348, 3017025418, 719156784,
      1574586022, 3445971767, 3127012257, 1143394250, 857866076, 2854792934, 3710885488,
      1128991699, 877411141, 2907007743, 3661781609, 1258113016, 1039824750, 1564343947,
      708496925, 3006504871, 3291787057, 1515207314, 760678916, 3026082750, 3277417256,
      1407612601, 618743343],
    [2457946349, 3850795131, 2089757121, 193468759, 2515307764, 3807100002, 2078469592,
      216390990, 2623193311, 3948802121, 870969837, 1156497787, 3722940609, 2866847831,
      881079796, 1132660066, 3666498776, 2911724622, 1026718175, 1245006153, 415539758,
      1875088056, 4140483330, 2177758100, 531195447, 1756255905, 4054255387, 2258646925,
      371141148, 1628969610, 31429487, 1993909241, 4023513667, 2564211413, 112351094,
      1907714016, 3904648794, 2679834316, 251927389, 2013473739, 1318978984, 966341950,
      2693817476, 3617018898, 1240711601, 1056239911, 2818416797, 3506081803, 1078300058,
      927120652, 1468347625, 545391743, 3112916421, 3465307475, 1357443312, 670023782,
      3202781660, 3387007306, 1499380955, 777620557, 2091411242, 196040636, 2460354054,
      3852547728, 2076549939, 214078373, 2513158687, 3805082249, 1920200472, 91545486,
      1706251883, 313812733, 2344433479, 4240050129, 1658753650, 366584548, 2362504030,
      4225221576, 1802034777, 477097679, 3794487972, 2502720050, 203762568, 2065832734,
      3846606525, 2453782059, 189329297, 2085609223, 3975201430, 2616717824, 4214258661,
      2352434035, 356391625, 1647913567, 4234002428, 2337967978, 307486416, 1700064838,
      4125881303, 2196554561],
    [3861956871, 2436364689, 138324011, 2134481085, 3780971806, 2522496392, 257125426,
      2018794660, 3907731765, 2683072931, 1933724426, 71662492, 2639014438, 3930790576,
      1949273875, 53002117, 2585914943, 3978747561, 2107228984, 178189230, 1483675849,
      795355231, 3059841509, 3244706163, 1594023120, 671476806, 2970402300, 3322645866,
      1454674171, 565420141, 1098131848, 913512734, 2944026788, 3632101426, 1176104337,
      824106247, 2820115645, 3742415915, 1336910266, 950571308, 238403407, 2033356761,
      3762019939, 2537352949, 156793686, 2120174528, 3881179770, 2421238508, 15611773,
      2011760619, 388926990, 1613348504, 4179685154, 2384977844, 272845335, 1732541057,
      4266470203, 2303335341, 435488316, 1861367466, 1006886349, 1258614107, 3524115681,
      2768931959, 997071316, 1281960258, 3579869432, 2724677742, 853038591, 1172268393,
      622390412, 1377819674, 3407252896, 3155279158, 578103445, 1433540611, 3430631865,
      3145496879, 734225598, 1556370472, 2726359107, 3582443733, 1284411759, 998875641,
      2783786074, 3538552012, 1273189750, 1021601248, 2891675761, 3680258279, 3147546882,
      3432837524, 1435869230, 580030648, 3170239771, 3421582733, 1392010295, 637490337,
      3040889136, 3259464102],
    [2078427961, 216365999, 2515282453, 3807058563, 2089783072, 193511350, 2457988620,
      3850821274, 1966719755, 37680029, 2998830115, 3317281973, 1555096847, 733468057,
      3050520634, 3268702380, 1541218582, 752488832, 3160738833, 3412212871, 2576603104,
      4002735990, 2006824652, 10126938, 2667451385, 3925418863, 1894806229, 133644867,
      2538102738, 3763302212, 2156455585, 4153398839, 1854310285, 427931419, 2279940792,
      4041347630, 1777025940, 518812418, 2387832467, 4183055877, 3486085222, 3100524784,
      566694218, 1455432156, 3366237311, 3215164649, 648729939, 1370351045, 3239245908,
      3054880962, 3604103463, 2715120049, 953950219, 1339756701, 3518989630, 2797122984,
      1068622866, 1219941508, 3624519957, 2936994179, 4261352164, 2331517554, 334590920,
      1693860702, 4203927293, 2375411307, 345814993, 1671137095, 4079262422, 2216929856,
      3840156581, 2481132339, 183124617, 2112713247, 3817465788, 2492389162, 226985616,
      2055255558, 3930041239, 2637732609, 1669087082, 343609340, 2373082694, 4202000080,
      1678900083, 320261093, 2317326943, 4246252233, 1839707992, 446728142, 2053574187,
      224411325, 2489937671, 3815661457, 2097859122, 168688292, 2466556702, 3825441672,
      1958512153, 62633615],
    [257149651, 2018835013, 3781012479, 2522520425, 138284746, 2134457948, 3861934054,
      2436325232, 25707233, 1989112439, 4061478596, 2232553042, 471556072, 1797025662,
      4118346461, 2189412939, 460758001, 1819388775, 4241405686, 2345240160, 3644353799,
      2923388305, 926288939, 1076968637, 3730155806, 2840762760, 811321394, 1197275300,
      3622036789, 2699351459, 3223542854, 3072617680, 774716778, 1495928316, 3343816799,
      2957617353, 692124019, 1581763045, 3472413812, 3120555234, 2405616257, 4167432727,
      1634511789, 376150843, 2282688152, 4278730254, 1711370164, 285630242, 2176402099,
      4139676197, 2524576704, 3783183190, 2021104364, 259041914, 2434023385, 3860008783,
      2132434677, 136146531, 2560783346, 4020585316, 3176441859, 3394476181, 1398458671,
      610138553, 3124325402, 3443416204, 1412894006, 590364064, 3012501553, 3297251495,
      2756680002, 3544754644, 1245837422, 1028049144, 2736938331, 3559222733, 1294744695,
      975899873, 2861830512, 3717407206, 601326989, 1422963995, 3453609121, 3135165495,
      616186260, 1404924162, 3400802488, 3182628910, 755764671, 1510685993, 986494156,
      1305183322, 3569538528, 2747655542, 1033990357, 1252409411, 3551465977, 2762482031,
      873938174, 1125125224],
    [2604026116, 3962665362, 1966614568, 37689534, 2623245597, 3948723595, 1918233649,
      89316519, 2515386678, 3807048096, 3929414704, 2637245606, 70810908, 1933528458,
      3982219305, 2589780159, 55949573, 1951566227, 3840775170, 2481628308, 3239792627,
      3055320933, 789917407, 1477582409, 3329657834, 2977020796, 679013062, 1602214480,
      3485517761, 3100112727, 3623911090, 2936491556, 906895262, 1091120904, 3748510379,
      2825554493, 828627847, 1181018897, 3604739712, 2715600406, 2537678965, 3762739427,
      2035255641, 239647183, 2418814060, 3878362362, 2116177216, 153451990, 2577031239,
      4003287249, 2388318516, 4183681442, 1616164888, 391350414, 2302090541, 4264570299,
      1731820545, 272518295, 2155958534, 4152779152, 2776074999, 3530603105, 1266281435,
      1014946637, 2719633134, 3575479928, 1276391362, 991108948, 2880176837, 3702207059,
      3161242550, 3412822816, 1382210202, 627436044, 3137437615, 3422965561, 1427054211,
      570961429, 2998350724, 3316646674, 1005889401, 1291032559, 3589981781, 2734552771,
      1016685408, 1268667382, 3533111884, 2777690842, 892284747, 1109925853, 586126904,
      1441310382, 3437360916, 3152463746, 629297697, 1384473271, 3414962957, 3163227035,
      741613066, 1530080924],
    [4018653422, 2558589048, 25799106, 1989056852, 3907652855, 2683124833, 115633627,
      1910725965, 3780919516, 2522574922, 2862458583, 3717895745, 1150535675, 865400685,
      2918212302, 3673641560, 1140720610, 888746868, 2756062949, 3544260211, 2175857940,
      4139238786, 1874760760, 414819502, 2262642957, 4057596315, 1758679073, 534012087,
      2406186278, 4167847344, 2561393749, 4021089475, 1990567289, 27432431, 2680553548,
      3904975066, 1908957536, 114250230, 2523941991, 3782704369, 3622458002, 2699911684,
      971256766, 1323500328, 3498546827, 2810226205, 1049229223, 1234093873, 3643923104,
      2922834486, 3471926227, 3119928133, 553583359, 1475883625, 3382486986, 3197867868,
      663930598, 1352005232, 3224038369, 3073235831, 3856412688, 2463826054, 198332732,
      2094358954, 3803313161, 2511783071, 213882149, 2075698611, 3943151650, 2617280692,
      4240900433, 2344628679, 315187325, 1708019947, 4222272840, 2360210910, 363111524,
      1654887666, 4061956451, 2233186805, 2069831070, 207105288, 2505145522, 3797306404,
      2083707271, 188082449, 2453452971, 3845883965, 1971623340, 42181946, 1648635103,
      356719689, 2353679859, 4216159589, 1697245382, 305059920, 2334624234, 4230003068,
      1822401773, 462984315],
    [1918192336, 89291334, 2623220732, 3948682090, 1966640841, 37731935, 2604068837,
      3962691443, 2089730786, 193589876, 1801546238, 476469608, 2238646482, 4066916420,
      1812770279, 453746033, 2181221579, 4110810205, 1706746316, 314429786, 1078737469,
      927664811, 2923584273, 3645205383, 1193410084, 807849650, 2838470408, 3727208350,
      1318564367, 965771929, 1498876796, 777010154, 3076090448, 3227409094, 1580912485,
      691929075, 2956242505, 3342048991, 1468826446, 546026456, 370580923, 1628548397,
      4162387095, 2401225729, 293296546, 1719429428, 4285872270, 2289174552, 416093577,
      1875518751, 252554490, 2013961324, 3775122902, 2516909376, 140536035, 2137479285,
      3865971151, 2439592281, 30811336, 1993413726, 606142265, 1395117999, 3392052757,
      3173625475, 592263968, 1414138806, 3443743244, 3125045914, 721123083, 1576814493,
      1027329656, 1245511406, 3543510868, 2754781122, 978717281, 1297169143, 3562564429,
      2740935643, 870336074, 1156019932, 3131298487, 3450135073, 1420669851, 598377229,
      3184400046, 3402180152, 1405122434, 617039636, 3027786373, 3279907347, 2746803190,
      3569341280, 1303806682, 984724044, 2765432815, 3553761145, 1255884483, 1037858389,
      2908974020, 3664010066],
    [115657530, 1910766508, 3907693078, 2683148928, 25759523, 1989033909, 4018630159,
      2558549657, 138363656, 2134406046, 734712601, 1556997007, 3318002229, 2999157411,
      749147904, 1537222550, 3265885740, 3048097466, 621894443, 1377201085, 15171802,
      2011213900, 4008305142, 2582565216, 126502083, 1888318549, 3917751791, 2659390841,
      238815464, 2033924222, 435990939, 1861976333, 4159885495, 2163597345, 512849282,
      1771455764, 4036957358, 2274894904, 388446633, 1612712255, 1455236956, 565843914,
      3098756720, 3484710630, 1372644165, 651678675, 3219030633, 3369710335, 1483124590,
      794927096, 1336284701, 950085259, 2712172337, 3601811367, 1221317124, 1070391954,
      2797974312, 3519185854, 1098751535, 914009785, 1686848990, 327972168, 2323981554,
      4253160548, 1676050887, 350335313, 2380849387, 4210020477, 1783680492, 492305786,
      2106619039, 177685513, 2476610995, 3835241765, 2063446150, 234520592, 2499006890,
      3824476476, 1934359725, 72141883, 4194854992, 2366593222, 335939964, 1661024746,
      4251298889, 2321718495, 325832037, 1684864499, 4107526242, 2211762420, 3809696017,
      2484365703, 220018749, 2048526507, 3833502984, 2474225054, 175176740, 2105003186,
      3989360931, 2597314997],
    [2179943231, 4142431145, 1877027347, 417733253, 2256703270, 4052074416, 1754066442,
      529260188, 2402599693, 4164154267, 1529293846, 740301952, 3039382842, 3257826732,
      1548412943, 726522009, 2990836003, 3309550005, 1442620452, 586912946, 1879736277,
      118312771, 2651070201, 3909299823, 2003286988, 6327130, 2573851360, 4000246390,
      2127689703, 165070705, 1762741908, 504790530, 2266967992, 4028112686, 1853655693,
      427538971, 2155015073, 4151696183, 1741342374, 281933360, 642832467, 1364715717,
      3361651071, 3210316265, 557653066, 1446653148, 3476258150, 3090435568, 680218721,
      1603035383, 1061939474, 1212995972, 3510995006, 2789390504, 942025995, 1327570333,
      3592965159, 2704243889, 831545632, 1184321974, 342276817, 1667336775, 4201176061,
      2372922219, 319520456, 1678528094, 4244971492, 2315399026, 448606947, 1840906869,
      226331536, 2054863622, 3816024764, 2490685994, 168841097, 2098691871, 3827183269,
      2467896883, 61211554, 1956721460, 2330302303, 4259489737, 1693185651, 334284517,
      2374521670, 4203701200, 1669739114, 343999228, 2218663789, 4080611323, 2482939422,
      3841562248, 2112931634, 184022948, 2492686855, 3818148497, 2057110315, 228209597,
      2636459564, 3928104634],
    [4116630229, 2186934851, 458271737, 1817680751, 4063432396, 2234793562, 473788384,
      1798987638, 4219814631, 2357359217, 462198513, 1821091431, 4119001053, 2189805387,
      484528872, 1810260606, 4075762628, 2246574930, 358031043, 1649421909, 815908146,
      1202124196, 3736052766, 2846397576, 936116523, 1087058365, 3653394439, 2932166801,
      1048202496, 1232960918, 700118131, 1589495013, 3350500703, 2964563401, 785854570,
      1506803964, 3235467590, 3084804560, 660700225, 1348881623, 1727750836, 301748770,
      2297758616, 4294062862, 1637263021, 378639931, 2409154433, 4171233047, 1746987654,
      522705424, 2145407989, 149381987, 2448306905, 3874030159, 2022545388, 260745082,
      2525230784, 3783575126, 1899748295, 104655697, 1422721078, 600453280, 3133366554,
      3452195212, 1403044911, 614986937, 3182339331, 3400111509, 1511426052, 756136082,
      1305882999, 986776033, 2748862555, 3571409101, 1253832046, 1035781624, 2763363394,
      3551700180, 1124972869, 873105875, 3394121144, 3175685422, 608193684, 1397193730,
      3441682849, 3122977079, 590186637, 1412085787, 3298141578, 3012728092, 3545570553,
      2756848751, 1029406165, 1247563075, 3560495328, 2738874486, 976665036, 1295092058,
      3717108939, 2861147229]
  ]

/-- The update of `ipMap` in the loop of `main`: add one to the entry of `ip`, or make
it 1 when there is none. The map is a list of entries with distinct keys. -/
def bump (ipMap : List (GoString × Nat)) (ip : GoString) : List (GoString × Nat) :=
  match ipMap with
  | [] => [(ip, 1)]
  | (k, v) :: rest => if k = ip then (k, v + 1) :: rest else (k, v) :: bump rest ip

/-- The lookup loop of `main` over the key indices `keys`: each key is resolved and
tallied under the `Ip` of the server returned; `none` stands for a panic, of `GetNode`
or of the type assertion `.(Server)` on a nil `Node`. -/
def tallyLoop (ch : ConsistentHashing Server) :
    List Nat → List (GoString × Nat) → Option (List (GoString × Nat))
  | [], ipMap => some ipMap
  | i :: rest, ipMap =>
    match GetNode ch (demoKey i) with
    | .ok (some k) => tallyLoop ch rest (bump ipMap k.Ip)
    | _ => none

/-- The function `main` up to its printing loop: 19 servers are added to
`NewConsistentHashing(100)` and the keys of indices 0 to 999 are tallied. -/
def demoTally : Option (List (GoString × Nat)) :=
  tallyLoop (build 100 demoServers) (List.range 1000) []

end ConsistentHashing
namespace ConsistentHashing

variable {N : Type}

/-! ## The loop of `AddNode` -/

theorem foldl_addReplica_ring [Node N] (node : N) (l : List Nat) (c : ConsistentHashing N) :
    (l.foldl (addReplica node) c).ring
      = c.ring ++ l.map (fun i : Nat => hash (Node.JoinStr node (i : Int))) := by
  induction l generalizing c with
  | nil => simp
  | cons a l ih => simp [List.foldl_cons, ih, addReplica]

theorem foldl_addReplica_Nodes [Node N] (node : N) (l : List Nat) (c : ConsistentHashing N)
    (p : Nat) :
    (l.foldl (addReplica node) c).Nodes p
      = if p ∈ l.map (fun i : Nat => hash (Node.JoinStr node (i : Int))) then some node
        else c.Nodes p := by
  induction l generalizing c with
  | nil => simp
  | cons a l ih =>
    simp only [List.foldl_cons, ih, List.map_cons, List.mem_cons]
    by_cases h1 : p ∈ l.map (fun i : Nat => hash (Node.JoinStr node (i : Int)))
    · simp [h1]
    · by_cases h2 : p = hash (Node.JoinStr node (a : Int))
      · simp [h2, addReplica]
      · simp [h1, h2, addReplica]

theorem foldl_addReplica_ReplicaCount [Node N] (node : N) (l : List Nat)
    (c : ConsistentHashing N) :
    (l.foldl (addReplica node) c).ReplicaCount = c.ReplicaCount := by
  induction l generalizing c with
  | nil => simp
  | cons a l ih => simp [List.foldl_cons, ih, addReplica]

theorem AddNode_ring [Node N] (c : ConsistentHashing N) (node : N) :
    (AddNode c node).ring = (c.ring ++ replicaPositions c node).insertionSort (· ≤ ·) := by
  simp [AddNode, replicaPositions, foldl_addReplica_ring]

theorem AddNode_Nodes [Node N] (c : ConsistentHashing N) (node : N) (p : Nat) :
    (AddNode c node).Nodes p
      = if p ∈ replicaPositions c node then some node else c.Nodes p := by
  simp only [AddNode, replicaPositions]
  exact foldl_addReplica_Nodes node _ c p

theorem AddNode_ReplicaCount [Node N] (c : ConsistentHashing N) (node : N) :
    (AddNode c node).ReplicaCount = c.ReplicaCount := by
  simp [AddNode, foldl_addReplica_ReplicaCount]

theorem mem_AddNode_ring [Node N] (c : ConsistentHashing N) (node : N) (p : Nat) :
    p ∈ (AddNode c node).ring ↔ p ∈ c.ring ∨ p ∈ replicaPositions c node := by
  rw [AddNode_ring, List.mem_insertionSort, List.mem_append]

theorem AddNode_ring_sorted [Node N] (c : ConsistentHashing N) (node : N) :
    (AddNode c node).ring.Sorted (· ≤ ·) := by
  rw [AddNode_ring]
  exact List.sorted_insertionSort _ _

theorem build_snoc [Node N] (repCounts : Int) (nodes : List N) (node : N) :
    build repCounts (nodes ++ [node]) = AddNode (build repCounts nodes) node := by
  simp [build, List.foldl_append]

theorem build_ring_sorted [Node N] (repCounts : Int) (nodes : List N) :
    (build repCounts nodes : ConsistentHashing N).ring.Sorted (· ≤ ·) := by
  induction nodes using List.reverseRecOn with
  | nil => simp [build, NewConsistentHashing]
  | append_singleton l a _ => rw [build_snoc]; exact AddNode_ring_sorted _ _

theorem build_ReplicaCount [Node N] (repCounts : Int) (nodes : List N) :
    (build repCounts nodes : ConsistentHashing N).ReplicaCount = repCounts := by
  induction nodes using List.reverseRecOn with
  | nil => simp [build, NewConsistentHashing]
  | append_singleton l a ih => rw [build_snoc, AddNode_ReplicaCount, ih]

end ConsistentHashing

namespace ConsistentHashing

variable {N : Type}

/-! ## The binary search of `GetNode` -/

theorem index_eq_ok {h : hashRing} {i : Nat} (hi : i < h.length) :
    index h i = .ok (h.get ⟨i, hi⟩) := by
  simp [index, List.getElem?_eq_getElem hi]

theorem sorted_get_le {h : hashRing} (hs : h.Sorted (· ≤ ·)) {a b : Nat} (hab : a ≤ b)
    (hb : b < h.length) :
    h.get ⟨a, lt_of_le_of_lt hab hb⟩ ≤ h.get ⟨b, hb⟩ :=
  hs.rel_get_of_le (a := ⟨a, lt_of_le_of_lt hab hb⟩) (b := ⟨b, hb⟩) hab

/-- The loop of `sort.Search` over a sorted ring keeps its invariant and ends,
with the fuel it is given, at the boundary between the positions below `x` and
the positions at or above `x`. -/
theorem searchLoop_ring {h : hashRing} (hs : h.Sorted (· ≤ ·)) (x : Nat) :
    ∀ (fuel i j : Nat), i ≤ j → j ≤ h.length → j - i ≤ fuel →
      (∀ k (hk : k < h.length), k < i → h.get ⟨k, hk⟩ < x) →
      (∀ k (hk : k < h.length), j ≤ k → x ≤ h.get ⟨k, hk⟩) →
      ∃ r, searchLoop (fun i => (index h i).map (fun v => decide (v ≥ x))) fuel i j = .ok r
        ∧ r ≤ h.length
        ∧ (∀ k (hk : k < h.length), k < r → h.get ⟨k, hk⟩ < x)
        ∧ (∀ k (hk : k < h.length), r ≤ k → x ≤ h.get ⟨k, hk⟩) := by
  intro fuel
  induction fuel with
  | zero =>
    intro i j hij hj hf hlo hhi
    have hji : j = i := by omega
    subst hji
    refine ⟨j, ?_, hj, hlo, hhi⟩
    unfold searchLoop
    simp
  | succ fuel ih =>
    intro i j hij hj hf hlo hhi
    by_cases hlt : i < j
    · have hm : (i + j) / 2 < h.length := by omega
      unfold searchLoop
      simp only [hlt, if_true, index_eq_ok hm, Except.map]
      by_cases hx : x ≤ h.get ⟨(i + j) / 2, hm⟩
      · have hdec : decide (h.get ⟨(i + j) / 2, hm⟩ ≥ x) = true := by simpa using hx
        simp only [hdec]
        apply ih i ((i + j) / 2) (by omega) (by omega) (by omega) hlo
        intro k hk hmk
        exact le_trans hx (sorted_get_le hs hmk hk)
      · have hdec : decide (h.get ⟨(i + j) / 2, hm⟩ ≥ x) = false := by simpa using hx
        simp only [hdec]
        apply ih ((i + j) / 2 + 1) j (by omega) hj (by omega) _ hhi
        intro k hk hkm
        have hkm2 : k ≤ (i + j) / 2 := by omega
        exact lt_of_le_of_lt (sorted_get_le hs hkm2 hm) (by omega)
    · have hji : j = i := by omega
      subst hji
      refine ⟨j, ?_, hj, hlo, hhi⟩
      unfold searchLoop
      simp

/-- On a sorted ring `sort.Search` returns (it neither panics nor runs out of
fuel) the first index whose position is at least `x`, or the length. -/
theorem Search_ring {h : hashRing} (hs : h.Sorted (· ≤ ·)) (x : Nat) :
    ∃ r, Search h.length (fun i => (index h i).map (fun v => decide (v ≥ x))) = .ok r
      ∧ r ≤ h.length
      ∧ (∀ k (hk : k < h.length), k < r → h.get ⟨k, hk⟩ < x)
      ∧ (∀ k (hk : k < h.length), r ≤ k → x ≤ h.get ⟨k, hk⟩) := by
  unfold Search
  apply searchLoop_ring hs x h.length 0 h.length (Nat.zero_le _) le_rfl (by omega)
  · intro k hk hk0; omega
  · intro k hk hk0; omega

end ConsistentHashing

namespace ConsistentHashing

variable {N : Type}

/-! ## What `GetNode` returns -/

theorem IsSuccessor_unique {ring : hashRing} {x p q : Nat} (hp : IsSuccessor ring x p)
    (hq : IsSuccessor ring x q) : p = q := by
  obtain ⟨hpm, hp⟩ := hp
  obtain ⟨hqm, hq⟩ := hq
  rcases hp with ⟨hxp, hpmin⟩ | ⟨hpall, hpmin⟩ <;> rcases hq with ⟨hxq, hqmin⟩ | ⟨hqall, hqmin⟩
  · exact le_antisymm (hpmin q hqm hxq) (hqmin p hpm hxp)
  · exact absurd (hqall p hpm) (by omega)
  · exact absurd (hpall q hqm) (by omega)
  · exact le_antisymm (hpmin q hqm) (hqmin p hpm)

/-- On a sorted, non-empty ring `GetNode` returns, without a fault, the mapping's
entry for the successor position of the key's hash. -/
theorem GetNode_sorted (c : ConsistentHashing N) (key : GoString)
    (hs : c.ring.Sorted (· ≤ ·)) (hne : c.ring ≠ []) :
    ∃ p, IsSuccessor c.ring (ChecksumIEEE key) p ∧ GetNode c key = .ok (c.Nodes p) := by
  obtain ⟨r, hr, hrn, hlo, hhi⟩ := Search_ring hs (ChecksumIEEE key)
  have hpos : 0 < c.ring.length := List.length_pos.mpr hne
  by_cases hlt : r < c.ring.length
  · refine ⟨c.ring.get ⟨r, hlt⟩, ⟨List.get_mem _ _ _, Or.inl ⟨hhi r hlt le_rfl, ?_⟩⟩, ?_⟩
    · intro q hq hxq
      obtain ⟨⟨k, hk⟩, rfl⟩ := List.get_of_mem hq
      by_cases hkr : k < r
      · exact absurd (hlo k hk hkr) (by omega)
      · exact sorted_get_le hs (by omega) hk
    · simp only [GetNode]
      rw [hr]
      simp only [hlt, if_true, index_eq_ok hlt, Except.map]
  · refine ⟨c.ring.get ⟨0, hpos⟩, ⟨List.get_mem _ _ _, Or.inr ⟨?_, ?_⟩⟩, ?_⟩
    · intro q hq
      obtain ⟨⟨k, hk⟩, rfl⟩ := List.get_of_mem hq
      exact hlo k hk (by omega)
    · intro q hq
      obtain ⟨⟨k, hk⟩, rfl⟩ := List.get_of_mem hq
      exact sorted_get_le hs (Nat.zero_le k) hk
    · simp only [GetNode]
      rw [hr]
      simp only [hlt, if_false, index_eq_ok hpos, Except.map]

theorem AddNode_ring_ne_nil [Node N] (c : ConsistentHashing N) (node : N) (hne : c.ring ≠ []) :
    (AddNode c node).ring ≠ [] := by
  obtain ⟨p, hp⟩ := List.exists_mem_of_ne_nil _ hne
  exact List.ne_nil_of_mem ((mem_AddNode_ring c node p).mpr (Or.inl hp))

/-- On a sorted, non-empty ring, a lookup after `AddNode(node)` gives what it
gave before or `node`. -/
theorem GetNode_AddNode_sorted [Node N] (c : ConsistentHashing N) (node : N) (key : GoString)
    (hs : c.ring.Sorted (· ≤ ·)) (hne : c.ring ≠ []) :
    ∃ before after, GetNode c key = .ok before ∧ GetNode (AddNode c node) key = .ok after
      ∧ (after = before ∨ after = some node) := by
  obtain ⟨p, hp, hget⟩ := GetNode_sorted c key hs hne
  obtain ⟨q, hq, hget2⟩ := GetNode_sorted (AddNode c node) key (AddNode_ring_sorted c node)
    (AddNode_ring_ne_nil c node hne)
  refine ⟨c.Nodes p, (AddNode c node).Nodes q, hget, hget2, ?_⟩
  rw [AddNode_Nodes]
  by_cases hnew : q ∈ replicaPositions c node
  · right; simp [hnew]
  · left
    simp only [hnew, if_false]
    have hqold : q ∈ c.ring := by
      rcases (mem_AddNode_ring c node q).mp hq.1 with h | h
      · exact h
      · exact absurd h hnew
    have hsucc : IsSuccessor c.ring (ChecksumIEEE key) q := by
      refine ⟨hqold, ?_⟩
      rcases hq.2 with ⟨hxq, hmin⟩ | ⟨hall, hmin⟩
      · exact Or.inl ⟨hxq, fun t ht hxt => hmin t ((mem_AddNode_ring c node t).mpr (Or.inl ht)) hxt⟩
      · exact Or.inr ⟨fun t ht => hall t ((mem_AddNode_ring c node t).mpr (Or.inl ht)),
          fun t ht => hmin t ((mem_AddNode_ring c node t).mpr (Or.inl ht))⟩
    rw [IsSuccessor_unique hsucc hp]

/-- Every ring position of a reachable state is mapped to one of the added nodes,
and the mapping has no other entry. -/
theorem build_Nodes [Node N] (repCounts : Int) (nodes : List N) (p : Nat) :
    (p ∈ (build repCounts nodes).ring → ∃ n ∈ nodes, (build repCounts nodes).Nodes p = some n)
      ∧ (p ∉ (build repCounts nodes).ring → (build repCounts nodes).Nodes p = none) := by
  induction nodes using List.reverseRecOn with
  | nil => simp [build, NewConsistentHashing]
  | append_singleton l a ih =>
    rw [build_snoc]
    constructor
    · intro hp
      rw [AddNode_Nodes]
      by_cases hnew : p ∈ replicaPositions (build repCounts l) a
      · exact ⟨a, by simp, by simp [hnew]⟩
      · rcases (mem_AddNode_ring _ _ _).mp hp with h | h
        · obtain ⟨n, hn, hnp⟩ := ih.1 h
          exact ⟨n, by simp [hn], by simp [hnew, hnp]⟩
        · exact absurd h hnew
    · intro hp
      rw [mem_AddNode_ring] at hp
      push_neg at hp
      rw [AddNode_Nodes]
      simp [hp.2, ih.2 hp.1]

end ConsistentHashing

namespace ConsistentHashing

variable {N : Type}

/-! ## Lookups -/

/-- C1 (bounded remap): in a state reached from `NewConsistentHashing` by `AddNode`
calls whose ring is non-empty, a lookup of any key after one more `AddNode(n)` returns
either the node the lookup returned before, or `n`; no key moves between two nodes
that were already there. -/
theorem GetNode_AddNode_bounded_remap [Node N] (repCounts : Int) (nodes : List N) (n : N)
    (key : GoString) (hne : (build repCounts nodes).ring ≠ []) :
    ∃ before after, GetNode (build repCounts nodes) key = .ok before
      ∧ GetNode (AddNode (build repCounts nodes) n) key = .ok after
      ∧ (after = before ∨ after = some n) :=
  GetNode_AddNode_sorted _ n key (build_ring_sorted repCounts nodes) hne

theorem GetNode_AddNode_bounded_remap_witness :
    (build 2 [demoServer 1] : ConsistentHashing Server).ring ≠ []
      ∧ ∃ before after, GetNode (build 2 [demoServer 1]) [2] = .ok before
        ∧ GetNode (AddNode (build 2 [demoServer 1]) (demoServer 2)) [2] = .ok after
        ∧ (after = before ∨ after = some (demoServer 2)) :=
  ⟨by decide, GetNode_AddNode_bounded_remap 2 [demoServer 1] (demoServer 2) [2] (by decide)⟩

/-- C2 (successor lookup): in every reachable state, when some ring position is at
least the hash of the key, the binary search of `GetNode` stops at the first index
holding the smallest such position `p`, and `GetNode` returns the mapping's entry
for `p`. -/
theorem GetNode_successor [Node N] (repCounts : Int) (nodes : List N) (key : GoString)
    (p : Nat) (hp : p ∈ (build repCounts nodes).ring) (hge : ChecksumIEEE key ≤ p)
    (hmin : ∀ q ∈ (build repCounts nodes).ring, ChecksumIEEE key ≤ q → p ≤ q) :
    GetNode (build repCounts nodes) key = .ok ((build repCounts nodes).Nodes p)
      ∧ ∃ i, Search (build repCounts nodes).ring.length
            (fun i => (index (build repCounts nodes).ring i).map
              (fun v => decide (v ≥ ChecksumIEEE key))) = .ok i
          ∧ (build repCounts nodes).ring[i]? = some p
          ∧ ∀ k v, k < i → (build repCounts nodes).ring[k]? = some v → v < ChecksumIEEE key := by
  have hs := build_ring_sorted repCounts nodes
  have hne : (build repCounts nodes).ring ≠ [] := List.ne_nil_of_mem hp
  constructor
  · obtain ⟨q, hq, hget⟩ := GetNode_sorted (build repCounts nodes) key hs hne
    rw [hget, IsSuccessor_unique hq ⟨hp, Or.inl ⟨hge, hmin⟩⟩]
  · obtain ⟨r, hr, _, hlo, hhi⟩ := Search_ring hs (ChecksumIEEE key)
    obtain ⟨⟨k, hk⟩, hkp⟩ := List.get_of_mem hp
    have hrk : r ≤ k := by
      by_contra hcon
      have := hlo k hk (by omega)
      rw [hkp] at this
      omega
    have hrl : r < (build repCounts nodes).ring.length := by omega
    refine ⟨r, hr, ?_, ?_⟩
    · rw [List.getElem?_eq_getElem hrl]
      have h1 : (build repCounts nodes).ring.get ⟨r, hrl⟩ ≤ p := by
        rw [← hkp]; exact sorted_get_le hs hrk hk
      have h2 : p ≤ (build repCounts nodes).ring.get ⟨r, hrl⟩ :=
        hmin _ (List.get_mem _ _ _) (hhi r hrl le_rfl)
      exact congrArg some (le_antisymm h1 h2)
    · intro j v hj hv
      obtain ⟨hjl, hjv⟩ := List.getElem?_eq_some.mp hv
      rw [← hjv]
      exact hlo j hjl hj

theorem GetNode_successor_witness :
    (1535652351 ∈ (build 2 [demoServer 1, demoServer 2] : ConsistentHashing Server).ring
      ∧ ChecksumIEEE [2] ≤ 1535652351
      ∧ ∀ q ∈ (build 2 [demoServer 1, demoServer 2] : ConsistentHashing Server).ring,
          ChecksumIEEE [2] ≤ q → 1535652351 ≤ q)
      ∧ GetNode (build 2 [demoServer 1, demoServer 2]) [2]
          = .ok ((build 2 [demoServer 1, demoServer 2]).Nodes 1535652351) :=
  ⟨by decide,
    (GetNode_successor 2 [demoServer 1, demoServer 2] [2] 1535652351 (by decide) (by decide)
      (by decide)).1⟩

/-- C3 (wrap-around): in every reachable state with a non-empty ring, a key whose
hash is above every ring position is given the node mapped to the smallest ring
position. -/
theorem GetNode_wrap_around [Node N] (repCounts : Int) (nodes : List N) (key : GoString)
    (p : Nat) (hp : p ∈ (build repCounts nodes).ring)
    (hmin : ∀ q ∈ (build repCounts nodes).ring, p ≤ q)
    (habove : ∀ q ∈ (build repCounts nodes).ring, q < ChecksumIEEE key) :
    GetNode (build repCounts nodes) key = .ok ((build repCounts nodes).Nodes p)
      ∧ (build repCounts nodes).ring.head? = some p := by
  have hs := build_ring_sorted repCounts nodes
  have hne : (build repCounts nodes).ring ≠ [] := List.ne_nil_of_mem hp
  constructor
  · obtain ⟨q, hq, hget⟩ := GetNode_sorted (build repCounts nodes) key hs hne
    rw [hget, IsSuccessor_unique hq ⟨hp, Or.inr ⟨habove, hmin⟩⟩]
  · generalize (build repCounts nodes).ring = ring at hs hp hmin hne
    cases ring with
    | nil => exact absurd rfl hne
    | cons a l =>
      have h1 : p ≤ a := hmin a (List.mem_cons_self _ _)
      have h2 : a ≤ p := by
        rcases List.mem_cons.mp hp with h | h
        · exact le_of_eq h.symm
        · exact List.rel_of_sorted_cons hs p h
      simp [le_antisymm h2 h1]

theorem GetNode_wrap_around_witness :
    (747569513 ∈ (build 2 [demoServer 2] : ConsistentHashing Server).ring
      ∧ (∀ q ∈ (build 2 [demoServer 2] : ConsistentHashing Server).ring, 747569513 ≤ q)
      ∧ ∀ q ∈ (build 2 [demoServer 2] : ConsistentHashing Server).ring, q < ChecksumIEEE [0])
      ∧ GetNode (build 2 [demoServer 2]) [0] = .ok ((build 2 [demoServer 2]).Nodes 747569513)
      ∧ (build 2 [demoServer 2] : ConsistentHashing Server).ring.head? = some 747569513 :=
  ⟨by decide,
    GetNode_wrap_around 2 [demoServer 2] [0] 747569513 (by decide) (by decide) (by decide)⟩

/-- C4 (coverage): in every reachable state with a non-empty ring, `GetNode` of any
key ends without a fault (no index out of range, no exhausted search) and returns a
node, not nil, that is one of the nodes passed to `AddNode`. -/
theorem GetNode_coverage [Node N] (repCounts : Int) (nodes : List N) (key : GoString)
    (hne : (build repCounts nodes).ring ≠ []) :
    ∃ n ∈ nodes, GetNode (build repCounts nodes) key = .ok (some n) := by
  obtain ⟨p, hp, hget⟩ := GetNode_sorted (build repCounts nodes) key
    (build_ring_sorted repCounts nodes) hne
  obtain ⟨n, hn, hnp⟩ := (build_Nodes repCounts nodes p).1 hp.1
  exact ⟨n, hn, by rw [hget, hnp]⟩

theorem GetNode_coverage_witness :
    (build 2 [demoServer 1, demoServer 2] : ConsistentHashing Server).ring ≠ []
      ∧ ∃ n ∈ [demoServer 1, demoServer 2],
          GetNode (build 2 [demoServer 1, demoServer 2]) [7] = .ok (some n) :=
  ⟨by decide, GetNode_coverage 2 [demoServer 1, demoServer 2] [7] (by decide)⟩

/-- C5 (empty-ring lookup), as the code has it: on a controller whose ring is empty
`GetNode` of any key panics with an index out of range, at `c.ring[0]`; it surfaces
no condition of its own. -/
theorem GetNode_empty_ring (c : ConsistentHashing N) (key : GoString) (h : c.ring = []) :
    GetNode c key = .error .indexOutOfRange := by
  simp [GetNode, h, Search, searchLoop, index, Except.map]

theorem GetNode_empty_ring_witness :
    (NewConsistentHashing 100 : ConsistentHashing Server).ring = []
      ∧ GetNode (NewConsistentHashing 100 : ConsistentHashing Server)
          [107, 101, 49, 50, 51, 52, 53, 54, 121, 48] = .error .indexOutOfRange :=
  ⟨rfl, GetNode_empty_ring _ _ rfl⟩

end ConsistentHashing

namespace ConsistentHashing

variable {N : Type}

/-! ## Insertion -/

theorem wrapInt_of_range {x : Int} (h1 : -2 ^ 63 ≤ x) (h2 : x < 2 ^ 63) : wrapInt x = x := by
  unfold wrapInt
  omega

theorem replicaPositions_length [Node N] (c : ConsistentHashing N) (node : N) :
    (replicaPositions c node).length = (wrapInt (Node.Weight node * c.ReplicaCount)).toNat := by
  simp [replicaPositions]

theorem AddNode_of_count_nonpos [Node N] (c : ConsistentHashing N) (node : N)
    (hs : c.ring.Sorted (· ≤ ·)) (h : wrapInt (Node.Weight node * c.ReplicaCount) ≤ 0) :
    AddNode c node = c := by
  have h0 : (wrapInt (Node.Weight node * c.ReplicaCount)).toNat = 0 := by omega
  simp only [AddNode, h0, List.range_zero, List.foldl_nil, hs.insertionSort_eq]

/-- C6 (ring after `AddNode`), amended for the overflow of the product: in every
reachable state with ring `r` and replica count `c`, with `count` the Go value of
`n.Weight() * c`, the ring after `AddNode(n)` is the ascending sort of `r` followed by
the hashes of `n.JoinStr(i)` for `i = 0 .. count-1`; and when `n.Weight() > 0`,
`c > 0` and the product is below `2^63` (it does not overflow), the ring length grows
by exactly `n.Weight() * c` and every position keeps at least its multiplicity. -/
theorem AddNode_ring_post [Node N] (repCounts : Int) (nodes : List N) (n : N) :
    ((AddNode (build repCounts nodes) n).ring.Sorted (· ≤ ·)
      ∧ (AddNode (build repCounts nodes) n).ring.Perm
          ((build repCounts nodes).ring ++
            (List.range (wrapInt (Node.Weight n * repCounts)).toNat).map
              (fun i : Nat => ChecksumIEEE (Node.JoinStr n (i : Int)))))
      ∧ (0 < Node.Weight n → 0 < repCounts → Node.Weight n * repCounts < 2 ^ 63 →
          ((AddNode (build repCounts nodes) n).ring.length : Int)
              = (build repCounts nodes).ring.length + Node.Weight n * repCounts
            ∧ ∀ p, (build repCounts nodes).ring.count p
                ≤ (AddNode (build repCounts nodes) n).ring.count p) := by
  have hperm : (AddNode (build repCounts nodes) n).ring.Perm
      ((build repCounts nodes).ring ++
        (List.range (wrapInt (Node.Weight n * repCounts)).toNat).map
          (fun i : Nat => ChecksumIEEE (Node.JoinStr n (i : Int)))) := by
    rw [AddNode_ring]
    simp only [replicaPositions, build_ReplicaCount, hash]
    exact List.perm_insertionSort _ _
  refine ⟨⟨AddNode_ring_sorted _ _, hperm⟩, ?_⟩
  intro hw hc hno
  have hpos : 0 < Node.Weight n * repCounts := Int.mul_pos hw hc
  have hwrap : wrapInt (Node.Weight n * repCounts) = Node.Weight n * repCounts :=
    wrapInt_of_range (by omega) hno
  constructor
  · rw [hperm.length_eq, List.length_append, List.length_map, List.length_range, hwrap]
    push_cast
    rw [Int.toNat_of_nonneg (le_of_lt hpos)]
  · intro p
    rw [hperm.count_eq, List.count_append]
    exact Nat.le_add_right _ _

end ConsistentHashing

namespace ConsistentHashing

variable {N : Type}

theorem AddNode_ring_post_witness :
    ((0 : Int) < Node.Weight (demoServer 2) ∧ (0 : Int) < 2
        ∧ Node.Weight (demoServer 2) * 2 < 2 ^ 63)
      ∧ ((AddNode (build 2 [demoServer 1]) (demoServer 2)).ring.Sorted (· ≤ ·)
        ∧ (AddNode (build 2 [demoServer 1]) (demoServer 2)).ring.Perm
            ((build 2 [demoServer 1]).ring ++
              (List.range (wrapInt (Node.Weight (demoServer 2) * 2)).toNat).map
                (fun i : Nat => ChecksumIEEE (Node.JoinStr (demoServer 2) (i : Int)))))
      ∧ (((AddNode (build 2 [demoServer 1]) (demoServer 2)).ring.length : Int)
            = (build 2 [demoServer 1]).ring.length + Node.Weight (demoServer 2) * 2
          ∧ ∀ p, (build 2 [demoServer 1]).ring.count p
              ≤ (AddNode (build 2 [demoServer 1]) (demoServer 2)).ring.count p) :=
  ⟨by decide, (AddNode_ring_post 2 [demoServer 1] (demoServer 2)).1,
    (AddNode_ring_post 2 [demoServer 1] (demoServer 2)).2 (by decide) (by decide) (by decide)⟩

/-- C6 as written fails: on `NewConsistentHashing(2)` the weight `2^62` is positive
and so is the replica count, but the Go product wraps to `-2^63`, the loop does not
run and the ring stays empty; it grows neither by `2^63` nor by the wrapped value. -/
theorem AddNode_ring_length_overflow :
    (0 : Int) < Node.Weight heavyServer ∧ (0 : Int) < 2
      ∧ wrapInt (Node.Weight heavyServer * 2) = -9223372036854775808
      ∧ (AddNode (build 2 ([] : List Server)) heavyServer).ring = []
      ∧ ((AddNode (build 2 ([] : List Server)) heavyServer).ring.length : Int)
          ≠ (build 2 ([] : List Server)).ring.length + Node.Weight heavyServer * 2
      ∧ ((AddNode (build 2 ([] : List Server)) heavyServer).ring.length : Int)
          ≠ (build 2 ([] : List Server)).ring.length + wrapInt (Node.Weight heavyServer * 2) := by
  decide

/-- C7 (mapping after `AddNode`, last write wins): for every controller state, node
`n` with `count` the Go value of `n.Weight() * ReplicaCount`, and position `p`: after
`AddNode(n)` the mapping at `p` is `n` when `p` is the hash of `n.JoinStr(i)` for some
`0 <= i < count`, whatever was mapped there before, and otherwise it is what it was
before the call (the same node, or absent). -/
theorem AddNode_Nodes_post [Node N] (c : ConsistentHashing N) (n : N) (p : Nat) :
    ((∃ i : Int, 0 ≤ i ∧ i < wrapInt (Node.Weight n * c.ReplicaCount)
          ∧ p = ChecksumIEEE (Node.JoinStr n i)) → (AddNode c n).Nodes p = some n)
      ∧ ((¬ ∃ i : Int, 0 ≤ i ∧ i < wrapInt (Node.Weight n * c.ReplicaCount)
          ∧ p = ChecksumIEEE (Node.JoinStr n i)) → (AddNode c n).Nodes p = c.Nodes p) := by
  have hiff : p ∈ replicaPositions c n ↔
      ∃ i : Int, 0 ≤ i ∧ i < wrapInt (Node.Weight n * c.ReplicaCount)
        ∧ p = ChecksumIEEE (Node.JoinStr n i) := by
    simp only [replicaPositions, List.mem_map, List.mem_range, hash]
    constructor
    · rintro ⟨k, hk, rfl⟩
      exact ⟨(k : Int), by omega, by omega, rfl⟩
    · rintro ⟨i, h0, hi, rfl⟩
      refine ⟨i.toNat, by omega, ?_⟩
      rw [Int.toNat_of_nonneg h0]
  rw [AddNode_Nodes]
  constructor
  · intro h
    rw [if_pos (hiff.mpr h)]
  · intro h
    rw [if_neg (fun hm => h (hiff.mp hm))]

theorem AddNode_Nodes_post_witness :
    ((∃ i : Int, 0 ≤ i ∧ i < wrapInt (Node.Weight (demoServer 2)
            * (build 2 [demoServer 1] : ConsistentHashing Server).ReplicaCount)
          ∧ 1535652351 = ChecksumIEEE (Node.JoinStr (demoServer 2) i))
        ∧ (AddNode (build 2 [demoServer 1]) (demoServer 2)).Nodes 1535652351
            = some (demoServer 2))
      ∧ ((¬ ∃ i : Int, 0 ≤ i ∧ i < wrapInt (Node.Weight (demoServer 2)
            * (build 2 [demoServer 1] : ConsistentHashing Server).ReplicaCount)
          ∧ 2311530428 = ChecksumIEEE (Node.JoinStr (demoServer 2) i))
        ∧ (AddNode (build 2 [demoServer 1]) (demoServer 2)).Nodes 2311530428
            = (build 2 [demoServer 1]).Nodes 2311530428) := by
  have hex : ∃ i : Int, 0 ≤ i ∧ i < wrapInt (Node.Weight (demoServer 2)
        * (build 2 [demoServer 1] : ConsistentHashing Server).ReplicaCount)
      ∧ 1535652351 = ChecksumIEEE (Node.JoinStr (demoServer 2) i) :=
    ⟨0, by decide, by decide, by decide⟩
  have hnex : ¬ ∃ i : Int, 0 ≤ i ∧ i < wrapInt (Node.Weight (demoServer 2)
        * (build 2 [demoServer 1] : ConsistentHashing Server).ReplicaCount)
      ∧ 2311530428 = ChecksumIEEE (Node.JoinStr (demoServer 2) i) := by
    rintro ⟨i, h0, hi, hp⟩
    have hcount : wrapInt (Node.Weight (demoServer 2)
        * (build 2 [demoServer 1] : ConsistentHashing Server).ReplicaCount) = 2 := by decide
    rw [hcount] at hi
    have hcases : i = 0 ∨ i = 1 := by omega
    rcases hcases with rfl | rfl
    · revert hp; decide
    · revert hp; decide
  exact ⟨⟨hex, (AddNode_Nodes_post _ _ _).1 hex⟩, ⟨hnex, (AddNode_Nodes_post _ _ _).2 hnex⟩⟩

/-- C8 (a weight that is not positive adds nothing), amended for the overflow of the
product: in every state reachable from `NewConsistentHashing(c)` with `c > 0`, for
every node whose `Weight()` is zero or negative and whose product `Weight() * c` is
not below `-2^63` (it does not overflow), `AddNode` returns and leaves the ring, the
mapping and `ReplicaCount` unchanged. -/
theorem AddNode_nonpositive_weight [Node N] (repCounts : Int) (nodes : List N) (n : N)
    (hc : 0 < repCounts) (hw : Node.Weight n ≤ 0)
    (hno : -2 ^ 63 ≤ Node.Weight n * repCounts) :
    (AddNode (build repCounts nodes) n).ring = (build repCounts nodes).ring
      ∧ (AddNode (build repCounts nodes) n).Nodes = (build repCounts nodes).Nodes
      ∧ (AddNode (build repCounts nodes) n).ReplicaCount = (build repCounts nodes).ReplicaCount := by
  have hprod : Node.Weight n * repCounts ≤ 0 :=
    Int.mul_nonpos_of_nonpos_of_nonneg hw (le_of_lt hc)
  have hcount : wrapInt (Node.Weight n * (build repCounts nodes).ReplicaCount) ≤ 0 := by
    rw [build_ReplicaCount, wrapInt_of_range hno (by omega)]
    exact hprod
  rw [AddNode_of_count_nonpos _ n (build_ring_sorted repCounts nodes) hcount]
  exact ⟨rfl, rfl, rfl⟩

theorem AddNode_nonpositive_weight_witness :
    ((0 : Int) < 100 ∧ Node.Weight ({ demoServer 2 with weight := -3 } : Server) ≤ 0
        ∧ -2 ^ 63 ≤ Node.Weight ({ demoServer 2 with weight := -3 } : Server) * 100)
      ∧ (AddNode (build 100 [demoServer 1]) { demoServer 2 with weight := -3 }).ring
          = (build 100 [demoServer 1]).ring
      ∧ (AddNode (build 100 [demoServer 1]) { demoServer 2 with weight := -3 }).Nodes
          = (build 100 [demoServer 1]).Nodes
      ∧ (AddNode (build 100 [demoServer 1]) { demoServer 2 with weight := -3 }).ReplicaCount
          = (build 100 [demoServer 1]).ReplicaCount :=
  ⟨by decide,
    AddNode_nonpositive_weight 100 [demoServer 1] { demoServer 2 with weight := -3 }
      (by decide) (by decide) (by decide)⟩

/-- C8 as written fails: on `NewConsistentHashing(2)`, a server of weight
`-(2^63 - 1)` has a negative weight, but the Go product wraps to `2`, so `AddNode`
adds two positions and maps both to the server. -/
theorem AddNode_negative_weight_overflow :
    (0 : Int) < 2 ∧ Node.Weight negativeServer < 0
      ∧ wrapInt (Node.Weight negativeServer * 2) = 2
      ∧ (build 2 ([] : List Server)).ring = []
      ∧ (AddNode (build 2 ([] : List Server)) negativeServer).ring = [534159065, 1758572111]
      ∧ (AddNode (build 2 ([] : List Server)) negativeServer).ring
          ≠ (build 2 ([] : List Server)).ring
      ∧ (AddNode (build 2 ([] : List Server)) negativeServer).Nodes 534159065
          = some negativeServer
      ∧ (build 2 ([] : List Server)).Nodes 534159065 = none := by
  decide

/-! ## Invariants -/

/-- C9 (sorted ring): in every state reachable from `NewConsistentHashing` by any
sequence of `AddNode` calls, the ring is in ascending (non-decreasing) order. -/
theorem ring_sorted [Node N] (repCounts : Int) (nodes : List N) :
    (build repCounts nodes : ConsistentHashing N).ring.Sorted (· ≤ ·) :=
  build_ring_sorted repCounts nodes

/-- C10 (ring and mapping agree): in every state reachable from
`NewConsistentHashing` by any sequence of `AddNode` calls, a position has an entry in
`Nodes` if and only if it occurs in the ring. -/
theorem Nodes_isSome_iff_mem_ring [Node N] (repCounts : Int) (nodes : List N) (p : Nat) :
    ((build repCounts nodes : ConsistentHashing N).Nodes p).isSome
      ↔ p ∈ (build repCounts nodes : ConsistentHashing N).ring := by
  constructor
  · intro h
    by_contra hp
    rw [(build_Nodes repCounts nodes p).2 hp] at h
    exact absurd h (by simp)
  · intro hp
    obtain ⟨n, _, hn⟩ := (build_Nodes repCounts nodes p).1 hp
    rw [hn]
    rfl

end ConsistentHashing

namespace ConsistentHashing

/-! ## Replica keys -/

theorem natDecAux_foldl (fuel n : Nat) (acc : List Nat) (h : n < fuel) :
    (natDecAux fuel n acc).foldl (fun a d => 10 * a + (d - 48)) 0
      = acc.foldl (fun a d => 10 * a + (d - 48)) n := by
  induction fuel generalizing n acc with
  | zero => omega
  | succ fuel ih =>
    unfold natDecAux
    by_cases h10 : n < 10
    · simp [h10]
    · simp only [h10, if_false]
      rw [ih (n / 10) _ (by omega)]
      simp only [List.foldl_cons]
      congr 1
      omega

theorem decVal_natDec (n : Nat) : decVal (natDec n) = n := by
  unfold decVal natDec
  rw [natDecAux_foldl (n + 1) n [] (by omega)]
  simp

theorem natDec_injective {m n : Nat} (h : natDec m = natDec n) : m = n := by
  have := congrArg decVal h
  rwa [decVal_natDec, decVal_natDec] at this

theorem natDecAux_digits (fuel n : Nat) (acc : List Nat)
    (hacc : ∀ d ∈ acc, 48 ≤ d ∧ d ≤ 57) :
    ∀ d ∈ natDecAux fuel n acc, 48 ≤ d ∧ d ≤ 57 := by
  induction fuel generalizing n acc with
  | zero => simpa [natDecAux] using hacc
  | succ fuel ih =>
    unfold natDecAux
    by_cases h10 : n < 10
    · simp only [h10, if_true]
      intro d hd
      rcases List.mem_cons.mp hd with rfl | hd
      · omega
      · exact hacc d hd
    · simp only [h10, if_false]
      apply ih
      intro d hd
      rcases List.mem_cons.mp hd with rfl | hd
      · omega
      · exact hacc d hd

theorem natDecAux_ne_nil (fuel n : Nat) (acc : List Nat) (h : acc ≠ [] ∨ 0 < fuel) :
    natDecAux fuel n acc ≠ [] := by
  induction fuel generalizing n acc with
  | zero =>
    rcases h with h | h
    · simpa [natDecAux] using h
    · omega
  | succ fuel ih =>
    unfold natDecAux
    by_cases h10 : n < 10
    · simp [h10]
    · simp only [h10, if_false]
      exact ih _ _ (Or.inl (by simp))

theorem natDec_digits (n : Nat) : ∀ d ∈ natDec n, 48 ≤ d ∧ d ≤ 57 :=
  natDecAux_digits (n + 1) n [] (by simp)

theorem natDec_ne_nil (n : Nat) : natDec n ≠ [] :=
  natDecAux_ne_nil (n + 1) n [] (Or.inr (by omega))

theorem Itoa_ne_nil (n : Int) : Itoa n ≠ [] := by
  unfold Itoa
  split
  · simp
  · exact natDec_ne_nil _

/-- Past its first byte, `Itoa n` has digits only. -/
theorem Itoa_tail_digits (n : Int) : ∀ d ∈ (Itoa n).tail, 48 ≤ d ∧ d ≤ 57 := by
  unfold Itoa
  split
  · simpa using natDec_digits _
  · intro d hd
    exact natDec_digits _ d (List.mem_of_mem_tail hd)

/-- The bytes of `Itoa n` are digits or the sign `-`. -/
theorem Itoa_bytes (n : Int) : ∀ d ∈ Itoa n, d = 45 ∨ (48 ≤ d ∧ d ≤ 57) := by
  unfold Itoa
  split
  · intro d hd
    rcases List.mem_cons.mp hd with rfl | hd
    · exact Or.inl rfl
    · exact Or.inr (natDec_digits _ d hd)
  · intro d hd
    exact Or.inr (natDec_digits _ d hd)

theorem Itoa_injective {m n : Int} (h : Itoa m = Itoa n) : m = n := by
  unfold Itoa at h
  by_cases hm : m < 0 <;> by_cases hn : n < 0
  · simp only [hm, hn, if_true, List.cons.injEq, true_and] at h
    have := natDec_injective h
    omega
  · simp only [hm, hn, if_true, if_false] at h
    have h1 := natDec_digits n.toNat 45 (by rw [← h]; simp)
    omega
  · simp only [hm, hn, if_true, if_false] at h
    have h1 := natDec_digits m.toNat 45 (by rw [h]; simp)
    omega
  · simp only [hm, hn, if_false] at h
    have := natDec_injective h
    omega

/-- A decimal number followed by the separator `-` can be read off the front of a
string in one way only. -/
theorem Itoa_sep_cancel {a b : Int} {x y : List Nat}
    (h : Itoa a ++ 45 :: x = Itoa b ++ 45 :: y) : a = b ∧ x = y := by
  have key : ∀ (u v : Int) (t r s : List Nat), Itoa v = Itoa u ++ t → 45 :: r = t ++ 45 :: s →
      t = [] := by
    intro u v t r s hv ht
    cases t with
    | nil => rfl
    | cons c t =>
      exfalso
      simp only [List.cons_append, List.cons.injEq] at ht
      obtain ⟨hc, _⟩ := ht
      subst hc
      have hmem : 45 ∈ (Itoa v).tail := by
        rw [hv]
        cases hu : Itoa u with
        | nil => exact absurd hu (Itoa_ne_nil u)
        | cons e l => simp
      have := Itoa_tail_digits v 45 hmem
      omega
  rcases List.append_eq_append_iff.mp h with ⟨t, hb, hx⟩ | ⟨t, ha, hy⟩
  · have ht := key a b t x y hb hx
    subst ht
    simp only [List.append_nil, List.nil_append, List.cons.injEq, true_and] at hb hx
    exact ⟨(Itoa_injective hb).symm, hx⟩
  · have ht := key b a t y x ha hy
    subst ht
    simp only [List.append_nil, List.nil_append, List.cons.injEq, true_and] at ha hy
    exact ⟨Itoa_injective ha, hy.symm⟩

/-- A string is cut at its last `c` in one way only. -/
theorem last_sep_cancel {c : Nat} {x y r s : List Nat} (hr : c ∉ r) (hs : c ∉ s)
    (h : x ++ c :: r = y ++ c :: s) : x = y ∧ r = s := by
  rcases List.append_eq_append_iff.mp h with ⟨t, hy, hx⟩ | ⟨t, hx', hy'⟩
  · cases t with
    | nil =>
      simp only [List.append_nil, List.nil_append, List.cons.injEq, true_and] at hy hx
      exact ⟨hy.symm, hx⟩
    | cons e t =>
      exfalso
      simp only [List.cons_append, List.cons.injEq] at hx
      exact hr (by rw [hx.2]; simp)
  · cases t with
    | nil =>
      simp only [List.append_nil, List.nil_append, List.cons.injEq, true_and] at hx' hy'
      exact ⟨hx', hy'.symm⟩
    | cons e t =>
      exfalso
      simp only [List.cons_append, List.cons.injEq] at hy'
      exact hs (by rw [hy'.2]; simp)

theorem Server.JoinStr_eq (s : Server) (i : Int) :
    s.JoinStr i
      = Itoa s.Id ++ 45 :: (s.Ip ++ 58 :: (Itoa s.Port ++ 45 :: (Itoa s.weight ++ 45 :: Itoa i))) := by
  simp [Server.JoinStr]

theorem colon_not_mem_tail (p w i : Int) :
    58 ∉ Itoa p ++ 45 :: (Itoa w ++ 45 :: Itoa i) := by
  intro h
  simp only [List.mem_append, List.mem_cons] at h
  rcases h with h | h | h | h | h
  · rcases Itoa_bytes p 58 h with h | h <;> omega
  · omega
  · rcases Itoa_bytes w 58 h with h | h <;> omega
  · omega
  · rcases Itoa_bytes i 58 h with h | h <;> omega

theorem Server.JoinStr_injective {s1 s2 : Server} {i j : Int}
    (h : s1.JoinStr i = s2.JoinStr j) : s1 = s2 ∧ i = j := by
  rw [Server.JoinStr_eq, Server.JoinStr_eq] at h
  obtain ⟨hId, h⟩ := Itoa_sep_cancel h
  obtain ⟨hIp, h⟩ := last_sep_cancel (colon_not_mem_tail _ _ _) (colon_not_mem_tail _ _ _) h
  obtain ⟨hPort, h⟩ := Itoa_sep_cancel h
  obtain ⟨hw, h⟩ := Itoa_sep_cancel h
  have hi := Itoa_injective h
  refine ⟨?_, hi⟩
  cases s1
  cases s2
  simp only at hId hIp hPort hw
  simp [hId, hIp, hPort, hw]

end ConsistentHashing

namespace ConsistentHashing

variable {N : Type}

/-- C11 (replica keys are distinct per index): for every `Server` and all integers
`i`, `j` that differ, `JoinStr(i)` and `JoinStr(j)` differ. -/
theorem Server_JoinStr_index_injective (s : Server) (i j : Int) (h : i ≠ j) :
    s.JoinStr i ≠ s.JoinStr j :=
  fun heq => h (Server.JoinStr_injective heq).2

theorem Server_JoinStr_index_injective_witness :
    (0 : Int) ≠ 1 ∧ (demoServer 1).JoinStr 0 ≠ (demoServer 1).JoinStr 1 :=
  ⟨by decide, Server_JoinStr_index_injective (demoServer 1) 0 1 (by decide)⟩

/-- C20 (replica keys are unique across nodes): `Server.JoinStr` is injective on
pairs of a server and an index: equal key strings come from equal servers (same
`Id`, `Ip`, `Port` and weight) and equal indices. -/
theorem Server_JoinStr_pair_injective (s1 s2 : Server) (i j : Int)
    (h : s1.JoinStr i = s2.JoinStr j) : s1 = s2 ∧ i = j :=
  Server.JoinStr_injective h

theorem Server_JoinStr_pair_injective_witness :
    (demoServer 3).JoinStr 7 = (demoServer 3).JoinStr 7
      ∧ demoServer 3 = demoServer 3 ∧ (7 : Int) = 7 :=
  ⟨rfl, Server_JoinStr_pair_injective (demoServer 3) (demoServer 3) 7 7 rfl⟩

/-! ## Determinism and construction -/

theorem Runs_eq_build [Node N] {repCounts : Int} {nodes : List N} {c : ConsistentHashing N}
    (h : Runs repCounts nodes c) : c = build repCounts nodes := by
  induction h with
  | new => rfl
  | add nodes node c c1 _ hstep ih =>
    obtain ⟨hsorted, hperm, hNodes, hRep⟩ := hstep
    have hring : c1.ring = (AddNode c node).ring := by
      apply List.eq_of_perm_of_sorted _ hsorted (AddNode_ring_sorted c node)
      refine hperm.trans ?_
      rw [AddNode_ring, foldl_addReplica_ring]
      exact (List.perm_insertionSort _ _).symm
    have hc1 : c1 = AddNode c node := by
      cases c1
      simp only at hring hNodes hRep
      simp only [AddNode, hNodes, hRep, foldl_addReplica_ReplicaCount]
      simp only [AddNode] at hring
      rw [hring]
    rw [hc1, ih, build_snoc]

theorem Runs_build [Node N] (repCounts : Int) (nodes : List N) :
    Runs repCounts nodes (build repCounts nodes) := by
  induction nodes using List.reverseRecOn with
  | nil => exact Runs.new
  | append_singleton l a ih =>
    rw [build_snoc]
    refine Runs.add l a _ _ ih ⟨AddNode_ring_sorted _ _, ?_, rfl, AddNode_ReplicaCount _ _⟩
    simp only [AddNode]
    exact List.perm_insertionSort _ _

/-- C12 (determinism): two controllers made by `NewConsistentHashing(c)` and the same
sequence of `AddNode` calls, whatever ascending order `sort.Sort` produces, have
equal rings and equal mappings, `GetNode` returns the same on both for every key,
and `GetNode`, which changes no state, returns the same on each repeated call. -/
theorem Runs_deterministic [Node N] (repCounts : Int) (nodes : List N)
    (c1 c2 : ConsistentHashing N) (key : GoString)
    (h1 : Runs repCounts nodes c1) (h2 : Runs repCounts nodes c2) :
    c1.ring = c2.ring ∧ c1.Nodes = c2.Nodes ∧ GetNode c1 key = GetNode c2 key
      ∧ ∀ r1 r2, GetNode c1 key = r1 → GetNode c1 key = r2 → r1 = r2 := by
  rw [Runs_eq_build h1, Runs_eq_build h2]
  exact ⟨rfl, rfl, rfl, fun r1 r2 e1 e2 => e1.symm.trans e2⟩

theorem Runs_deterministic_witness :
    (Runs 2 [demoServer 1, demoServer 2] (build 2 [demoServer 1, demoServer 2])
        ∧ Runs 2 [demoServer 1, demoServer 2]
            (AddNode (AddNode (NewConsistentHashing 2) (demoServer 1)) (demoServer 2)))
      ∧ (build 2 [demoServer 1, demoServer 2]).ring
          = (AddNode (AddNode (NewConsistentHashing 2) (demoServer 1)) (demoServer 2)).ring
      ∧ (build 2 [demoServer 1, demoServer 2]).Nodes
          = (AddNode (AddNode (NewConsistentHashing 2) (demoServer 1)) (demoServer 2)).Nodes
      ∧ GetNode (build 2 [demoServer 1, demoServer 2]) [7]
          = GetNode (AddNode (AddNode (NewConsistentHashing 2) (demoServer 1)) (demoServer 2)) [7]
      ∧ ∀ r1 r2, GetNode (build 2 [demoServer 1, demoServer 2]) [7] = r1 →
          GetNode (build 2 [demoServer 1, demoServer 2]) [7] = r2 → r1 = r2 :=
  ⟨⟨Runs_build _ _, Runs_build 2 [demoServer 1, demoServer 2]⟩,
    Runs_deterministic 2 [demoServer 1, demoServer 2] _ _ [7] (Runs_build _ _)
      (Runs_build 2 [demoServer 1, demoServer 2])⟩

/-- C13 (construction): for every integer `c`, `NewConsistentHashing(c)` has an empty
ring, an empty mapping and `ReplicaCount = c`; `AddNode` leaves `ReplicaCount` as it
is, so it is `c` in every state reached afterwards. -/
theorem NewConsistentHashing_post [Node N] (repCounts : Int) :
    (NewConsistentHashing repCounts : ConsistentHashing N).ring = []
      ∧ (∀ p, (NewConsistentHashing repCounts : ConsistentHashing N).Nodes p = none)
      ∧ (NewConsistentHashing repCounts : ConsistentHashing N).ReplicaCount = repCounts
      ∧ (∀ (c : ConsistentHashing N) (n : N), (AddNode c n).ReplicaCount = c.ReplicaCount)
      ∧ ∀ nodes : List N, (build repCounts nodes).ReplicaCount = repCounts :=
  ⟨rfl, fun _ => rfl, rfl, AddNode_ReplicaCount, build_ReplicaCount repCounts⟩

end ConsistentHashing

namespace ConsistentHashing

variable {N : Type}

/-! ## The lock of `GetNode` -/

/-- C14 (locking discipline of `GetNode`), as the code has it: `n := len(c.ring)` is
read before `c.RLock()`, so `GetNode` is `GetNodeLocked` run with a length read
without the lock. When an `AddNode(demoServer 2)` runs between the two, the lookup of
the key `[0]` combines the old length 2 with the new ring of length 4 and returns
server 2, while a lookup wholly before the call and a lookup wholly after the call
both return server 1. -/
theorem GetNode_stale_length :
    (∀ (c : ConsistentHashing Server) (key : GoString),
        GetNode c key = GetNodeLocked c.ring.length c key)
      ∧ (build 2 [demoServer 1]).ring.length = 2
      ∧ (AddNode (build 2 [demoServer 1]) (demoServer 2)).ring.length = 4
      ∧ GetNode (build 2 [demoServer 1]) [0] = .ok (some (demoServer 1))
      ∧ GetNode (AddNode (build 2 [demoServer 1]) (demoServer 2)) [0]
          = .ok (some (demoServer 1))
      ∧ GetNodeLocked (build 2 [demoServer 1]).ring.length
          (AddNode (build 2 [demoServer 1]) (demoServer 2)) [0]
          = .ok (some (demoServer 2)) :=
  ⟨fun _ _ => rfl, by decide, by decide, rfl, rfl, rfl⟩

/-! ## Lookups after insertions -/

theorem mem_replicaPositions [Node N] (c : ConsistentHashing N) (n : N) (p : Nat) :
    p ∈ replicaPositions c n ↔
      ∃ i : Int, 0 ≤ i ∧ i < wrapInt (Node.Weight n * c.ReplicaCount)
        ∧ p = ChecksumIEEE (Node.JoinStr n i) := by
  simp only [replicaPositions, List.mem_map, List.mem_range, hash]
  constructor
  · rintro ⟨k, hk, rfl⟩
    exact ⟨(k : Int), by omega, by omega, rfl⟩
  · rintro ⟨i, h0, hi, rfl⟩
    refine ⟨i.toNat, by omega, ?_⟩
    rw [Int.toNat_of_nonneg h0]

theorem replicaPositions_AddNode [Node N] (c : ConsistentHashing N) (a b : N) :
    replicaPositions (AddNode c a) b = replicaPositions c b := by
  simp only [replicaPositions, AddNode_ReplicaCount]

theorem GetNode_of_ring_nil (c : ConsistentHashing N) (key : GoString) (h : c.ring = []) :
    GetNode c key = .error .indexOutOfRange := by
  simp [GetNode, h, Search, searchLoop, index, Except.map]

theorem GetNode_eq_of_eq (c1 c2 : ConsistentHashing N) (key : GoString)
    (hr : c1.ring = c2.ring) (hN : c1.Nodes = c2.Nodes) : GetNode c1 key = GetNode c2 key := by
  simp only [GetNode, hr, hN]

theorem IsSuccessor_congr {r1 r2 : hashRing} {x p : Nat} (hmem : ∀ q, q ∈ r1 ↔ q ∈ r2)
    (h : IsSuccessor r1 x p) : IsSuccessor r2 x p := by
  obtain ⟨hp, h⟩ := h
  refine ⟨(hmem p).mp hp, ?_⟩
  rcases h with ⟨hx, hmin⟩ | ⟨hall, hmin⟩
  · exact Or.inl ⟨hx, fun q hq => hmin q ((hmem q).mpr hq)⟩
  · exact Or.inr ⟨fun q hq => hall q ((hmem q).mpr hq), fun q hq => hmin q ((hmem q).mpr hq)⟩

/-- Two controllers with sorted rings that hold the same positions, mapped alike,
answer every lookup alike. -/
theorem GetNode_congr (c1 c2 : ConsistentHashing N) (key : GoString)
    (hs1 : c1.ring.Sorted (· ≤ ·)) (hs2 : c2.ring.Sorted (· ≤ ·))
    (hmem : ∀ q, q ∈ c1.ring ↔ q ∈ c2.ring) (hN : ∀ q ∈ c1.ring, c1.Nodes q = c2.Nodes q) :
    GetNode c1 key = GetNode c2 key := by
  by_cases hne : c1.ring = []
  · have hne2 : c2.ring = [] := by
      apply List.eq_nil_iff_forall_not_mem.mpr
      intro q hq
      have := (hmem q).mpr hq
      rw [hne] at this
      exact absurd this (List.not_mem_nil q)
    rw [GetNode_of_ring_nil c1 key hne, GetNode_of_ring_nil c2 key hne2]
  · have hne2 : c2.ring ≠ [] := by
      obtain ⟨q, hq⟩ := List.exists_mem_of_ne_nil _ hne
      exact List.ne_nil_of_mem ((hmem q).mp hq)
    obtain ⟨p1, hp1, hg1⟩ := GetNode_sorted c1 key hs1 hne
    obtain ⟨p2, hp2, hg2⟩ := GetNode_sorted c2 key hs2 hne2
    have hpp : p1 = p2 := IsSuccessor_unique (IsSuccessor_congr hmem hp1) hp2
    rw [hg1, hg2, ← hpp, hN p1 hp1.1]

/-- C16 (self-lookup): in the state right after `AddNode(n)` on a reachable state,
with `count` the Go value of `n.Weight() * ReplicaCount`, looking up the replica key
`n.JoinStr(i)` of any index `0 <= i < count` returns `n`. -/
theorem GetNode_own_replica_key [Node N] (repCounts : Int) (nodes : List N) (n : N) (i : Int)
    (h0 : 0 ≤ i)
    (hi : i < wrapInt (Node.Weight n * (build repCounts nodes).ReplicaCount)) :
    GetNode (AddNode (build repCounts nodes) n) (Node.JoinStr n i) = .ok (some n) := by
  have hrp : ChecksumIEEE (Node.JoinStr n i) ∈ replicaPositions (build repCounts nodes) n :=
    (mem_replicaPositions _ _ _).mpr ⟨i, h0, hi, rfl⟩
  have hmem : ChecksumIEEE (Node.JoinStr n i) ∈ (AddNode (build repCounts nodes) n).ring :=
    (mem_AddNode_ring _ _ _).mpr (Or.inr hrp)
  obtain ⟨p, hp, hget⟩ := GetNode_sorted (AddNode (build repCounts nodes) n)
    (Node.JoinStr n i) (AddNode_ring_sorted _ _) (List.ne_nil_of_mem hmem)
  have hself : IsSuccessor (AddNode (build repCounts nodes) n).ring
      (ChecksumIEEE (Node.JoinStr n i)) (ChecksumIEEE (Node.JoinStr n i)) :=
    ⟨hmem, Or.inl ⟨le_rfl, fun q _ hq => hq⟩⟩
  rw [hget, IsSuccessor_unique hp hself, AddNode_Nodes, if_pos hrp]

theorem GetNode_own_replica_key_witness :
    ((0 : Int) ≤ 1
        ∧ (1 : Int) < wrapInt (Node.Weight (demoServer 2)
            * (build 2 [demoServer 1] : ConsistentHashing Server).ReplicaCount))
      ∧ GetNode (AddNode (build 2 [demoServer 1]) (demoServer 2))
          (Node.JoinStr (demoServer 2) 1) = .ok (some (demoServer 2)) :=
  ⟨by decide, GetNode_own_replica_key 2 [demoServer 1] (demoServer 2) 1 (by decide) (by decide)⟩

/-- C17 (adding a node again), amended for the number of positions appended: on a
reachable state, a second `AddNode(n)` right after the first changes no lookup and no
mapping entry; it appends, before the sort, the same positions again, each of them
already in the ring, as many as the loop runs (the Go value of
`n.Weight() * ReplicaCount`, none when that is not positive): when the product
`n.Weight() * ReplicaCount` is positive and below `2^63` (it does not overflow), the
ring grows by exactly `n.Weight() * ReplicaCount` duplicate positions. -/
theorem AddNode_twice [Node N] (repCounts : Int) (nodes : List N) (n : N) (key : GoString) :
    GetNode (AddNode (AddNode (build repCounts nodes) n) n) key
        = GetNode (AddNode (build repCounts nodes) n) key
      ∧ (AddNode (AddNode (build repCounts nodes) n) n).Nodes
          = (AddNode (build repCounts nodes) n).Nodes
      ∧ (AddNode (AddNode (build repCounts nodes) n) n).ring.Perm
          ((AddNode (build repCounts nodes) n).ring ++ replicaPositions (build repCounts nodes) n)
      ∧ (∀ p ∈ replicaPositions (build repCounts nodes) n,
          p ∈ (AddNode (build repCounts nodes) n).ring)
      ∧ (AddNode (AddNode (build repCounts nodes) n) n).ring.length
          = (AddNode (build repCounts nodes) n).ring.length
            + (wrapInt (Node.Weight n * repCounts)).toNat
      ∧ (0 < Node.Weight n * repCounts → Node.Weight n * repCounts < 2 ^ 63 →
          ((AddNode (AddNode (build repCounts nodes) n) n).ring.length : Int)
            = (AddNode (build repCounts nodes) n).ring.length + Node.Weight n * repCounts) := by
  have hN : (AddNode (AddNode (build repCounts nodes) n) n).Nodes
      = (AddNode (build repCounts nodes) n).Nodes := by
    funext p
    rw [AddNode_Nodes, replicaPositions_AddNode]
    by_cases hp : p ∈ replicaPositions (build repCounts nodes) n
    · rw [if_pos hp, AddNode_Nodes, if_pos hp]
    · rw [if_neg hp]
  have hperm : (AddNode (AddNode (build repCounts nodes) n) n).ring.Perm
      ((AddNode (build repCounts nodes) n).ring ++ replicaPositions (build repCounts nodes) n) := by
    rw [AddNode_ring (AddNode (build repCounts nodes) n), replicaPositions_AddNode]
    exact List.perm_insertionSort _ _
  have hdup : ∀ p ∈ replicaPositions (build repCounts nodes) n,
      p ∈ (AddNode (build repCounts nodes) n).ring :=
    fun p hp => (mem_AddNode_ring _ _ _).mpr (Or.inr hp)
  have hlen : (AddNode (AddNode (build repCounts nodes) n) n).ring.length
      = (AddNode (build repCounts nodes) n).ring.length
        + (wrapInt (Node.Weight n * repCounts)).toNat := by
    rw [hperm.length_eq, List.length_append, replicaPositions_length, build_ReplicaCount]
  refine ⟨?_, hN, hperm, hdup, hlen, ?_⟩
  · apply GetNode_congr _ _ key (AddNode_ring_sorted _ _) (AddNode_ring_sorted _ _)
    · intro q
      rw [mem_AddNode_ring (AddNode (build repCounts nodes) n), replicaPositions_AddNode]
      constructor
      · rintro (h | h)
        · exact h
        · exact hdup q h
      · exact Or.inl
    · intro q _
      rw [hN]
  · intro hpos hno
    rw [hlen, wrapInt_of_range (by omega) hno]
    push_cast
    rw [Int.toNat_of_nonneg (le_of_lt hpos)]

theorem AddNode_twice_witness :
    ((0 : Int) < Node.Weight (demoServer 2) * 2 ∧ Node.Weight (demoServer 2) * 2 < 2 ^ 63)
      ∧ GetNode (AddNode (AddNode (build 2 [demoServer 1]) (demoServer 2)) (demoServer 2)) [7]
          = GetNode (AddNode (build 2 [demoServer 1]) (demoServer 2)) [7]
      ∧ (AddNode (AddNode (build 2 [demoServer 1]) (demoServer 2)) (demoServer 2)).Nodes
          = (AddNode (build 2 [demoServer 1]) (demoServer 2)).Nodes
      ∧ ((AddNode (AddNode (build 2 [demoServer 1]) (demoServer 2)) (demoServer 2)).ring.length
            : Int)
          = (AddNode (build 2 [demoServer 1]) (demoServer 2)).ring.length
            + Node.Weight (demoServer 2) * 2 :=
  ⟨by decide, (AddNode_twice 2 [demoServer 1] (demoServer 2) [7]).1,
    (AddNode_twice 2 [demoServer 1] (demoServer 2) [7]).2.1,
    (AddNode_twice 2 [demoServer 1] (demoServer 2) [7]).2.2.2.2.2 (by decide) (by decide)⟩

/-- C17 as written fails in its count: on the state with server 1 and 2 replicas, a
server of weight `2^62` has the product `2^63` with the replica count, which Go holds
as `-2^63`; neither call of `AddNode` runs its loop, so the second call appends no
position, neither `2^63` of them nor the wrapped value. -/
theorem AddNode_twice_overflow :
    Node.Weight heavyServer * (build 2 [demoServer 1] : ConsistentHashing Server).ReplicaCount
        = 9223372036854775808
      ∧ wrapInt (Node.Weight heavyServer
          * (build 2 [demoServer 1] : ConsistentHashing Server).ReplicaCount)
          = -9223372036854775808
      ∧ (AddNode (build 2 [demoServer 1]) heavyServer).ring.length = 2
      ∧ (AddNode (AddNode (build 2 [demoServer 1]) heavyServer) heavyServer).ring.length = 2
      ∧ ((AddNode (AddNode (build 2 [demoServer 1]) heavyServer) heavyServer).ring.length : Int)
          ≠ (AddNode (build 2 [demoServer 1]) heavyServer).ring.length
            + Node.Weight heavyServer
              * (build 2 [demoServer 1] : ConsistentHashing Server).ReplicaCount
      ∧ ((AddNode (AddNode (build 2 [demoServer 1]) heavyServer) heavyServer).ring.length : Int)
          ≠ (AddNode (build 2 [demoServer 1]) heavyServer).ring.length
            + wrapInt (Node.Weight heavyServer
              * (build 2 [demoServer 1] : ConsistentHashing Server).ReplicaCount) := by
  decide

/-- C18 (insertion order): for every controller state and nodes `a`, `b`, the ring
after `AddNode(a); AddNode(b)` equals the ring after `AddNode(b); AddNode(a)`; and
when no hashed replica key of `a` is a hashed replica key of `b`, the mappings are
equal too and `GetNode` returns the same for every key under both orders. -/
theorem AddNode_comm [Node N] (c : ConsistentHashing N) (a b : N) :
    (AddNode (AddNode c a) b).ring = (AddNode (AddNode c b) a).ring
      ∧ ((∀ p ∈ replicaPositions c a, p ∉ replicaPositions c b) →
          (AddNode (AddNode c a) b).Nodes = (AddNode (AddNode c b) a).Nodes
            ∧ ∀ key, GetNode (AddNode (AddNode c a) b) key
                = GetNode (AddNode (AddNode c b) a) key) := by
  have hring : (AddNode (AddNode c a) b).ring = (AddNode (AddNode c b) a).ring := by
    apply List.eq_of_perm_of_sorted _ (AddNode_ring_sorted _ _) (AddNode_ring_sorted _ _)
    rw [AddNode_ring (AddNode c a), AddNode_ring (AddNode c b), replicaPositions_AddNode,
      replicaPositions_AddNode, AddNode_ring c a, AddNode_ring c b]
    refine (List.perm_insertionSort _ _).trans ?_
    refine List.Perm.trans ?_ (List.perm_insertionSort _ _).symm
    refine ((List.perm_insertionSort _ _).append_right _).trans ?_
    refine List.Perm.trans ?_ ((List.perm_insertionSort _ _).append_right _).symm
    rw [List.append_assoc, List.append_assoc]
    exact List.Perm.append_left _ List.perm_append_comm
  refine ⟨hring, fun hdisj => ?_⟩
  have hN : (AddNode (AddNode c a) b).Nodes = (AddNode (AddNode c b) a).Nodes := by
    funext p
    rw [AddNode_Nodes (AddNode c a), AddNode_Nodes (AddNode c b), replicaPositions_AddNode,
      replicaPositions_AddNode, AddNode_Nodes c a, AddNode_Nodes c b]
    by_cases ha : p ∈ replicaPositions c a
    · simp [ha, hdisj p ha]
    · simp [ha]
  exact ⟨hN, fun key => GetNode_eq_of_eq _ _ key hring hN⟩

theorem AddNode_comm_witness :
    (∀ p ∈ replicaPositions (build 2 [demoServer 1]) (demoServer 2),
        p ∉ replicaPositions (build 2 [demoServer 1]) (demoServer 3))
      ∧ (AddNode (AddNode (build 2 [demoServer 1]) (demoServer 2)) (demoServer 3)).ring
          = (AddNode (AddNode (build 2 [demoServer 1]) (demoServer 3)) (demoServer 2)).ring
      ∧ (AddNode (AddNode (build 2 [demoServer 1]) (demoServer 2)) (demoServer 3)).Nodes
          = (AddNode (AddNode (build 2 [demoServer 1]) (demoServer 3)) (demoServer 2)).Nodes
      ∧ ∀ key, GetNode (AddNode (AddNode (build 2 [demoServer 1]) (demoServer 2)) (demoServer 3)) key
          = GetNode (AddNode (AddNode (build 2 [demoServer 1]) (demoServer 3)) (demoServer 2)) key :=
  ⟨by decide, (AddNode_comm (build 2 [demoServer 1]) (demoServer 2) (demoServer 3)).1,
    (AddNode_comm (build 2 [demoServer 1]) (demoServer 2) (demoServer 3)).2 (by decide)⟩

end ConsistentHashing

namespace ConsistentHashing

variable {N : Type}

/-! ## Negative replica counts -/

/-- C19 (the sign of the product decides), amended for the overflow of the product:
`NewConsistentHashing` stores any integer as `ReplicaCount`; for a controller whose
`ReplicaCount` is negative and a node whose `Weight()` is negative, when the product
`Weight() * ReplicaCount` is below `2^63` (it does not overflow), the product is
positive and `AddNode` adds that many positions, each mapped to the node; on
`NewConsistentHashing(-1)`, `AddNode` of a `Server` of weight -1 leaves a ring of
length 1 whose position is mapped to that server. -/
theorem AddNode_negative_product [Node N] (c : ConsistentHashing N) (n : N)
    (hc : c.ReplicaCount < 0) (hw : Node.Weight n < 0)
    (hno : Node.Weight n * c.ReplicaCount < 2 ^ 63) :
    (∀ r : Int, (NewConsistentHashing r : ConsistentHashing N).ReplicaCount = r)
      ∧ 0 < Node.Weight n * c.ReplicaCount
      ∧ ((AddNode c n).ring.length : Int) = c.ring.length + Node.Weight n * c.ReplicaCount
      ∧ (∀ i : Int, 0 ≤ i → i < Node.Weight n * c.ReplicaCount →
          ChecksumIEEE (Node.JoinStr n i) ∈ (AddNode c n).ring
            ∧ (AddNode c n).Nodes (ChecksumIEEE (Node.JoinStr n i)) = some n)
      ∧ (AddNode (NewConsistentHashing (-1)) ({ demoServer 1 with weight := -1 } : Server)).ring.length
          = 1
      ∧ ∀ p ∈ (AddNode (NewConsistentHashing (-1))
            ({ demoServer 1 with weight := -1 } : Server)).ring,
          (AddNode (NewConsistentHashing (-1)) ({ demoServer 1 with weight := -1 } : Server)).Nodes p
            = some { demoServer 1 with weight := -1 } := by
  have hpos : 0 < Node.Weight n * c.ReplicaCount := Int.mul_pos_of_neg_of_neg hw hc
  have hwrap : wrapInt (Node.Weight n * c.ReplicaCount) = Node.Weight n * c.ReplicaCount :=
    wrapInt_of_range (by omega) hno
  refine ⟨fun _ => rfl, hpos, ?_, ?_, by decide, by decide⟩
  · rw [AddNode_ring, List.length_insertionSort, List.length_append, replicaPositions_length,
      hwrap]
    push_cast
    rw [Int.toNat_of_nonneg (le_of_lt hpos)]
  · intro i h0 hi
    have hrp : ChecksumIEEE (Node.JoinStr n i) ∈ replicaPositions c n :=
      (mem_replicaPositions _ _ _).mpr ⟨i, h0, by rw [hwrap]; exact hi, rfl⟩
    exact ⟨(mem_AddNode_ring _ _ _).mpr (Or.inr hrp), by rw [AddNode_Nodes, if_pos hrp]⟩

theorem AddNode_negative_product_witness :
    ((NewConsistentHashing (-3) : ConsistentHashing Server).ReplicaCount < 0
        ∧ Node.Weight ({ demoServer 1 with weight := -2 } : Server) < 0
        ∧ Node.Weight ({ demoServer 1 with weight := -2 } : Server)
            * (NewConsistentHashing (-3) : ConsistentHashing Server).ReplicaCount < 2 ^ 63)
      ∧ ((AddNode (NewConsistentHashing (-3))
            ({ demoServer 1 with weight := -2 } : Server)).ring.length : Int)
          = (NewConsistentHashing (-3) : ConsistentHashing Server).ring.length
            + Node.Weight ({ demoServer 1 with weight := -2 } : Server)
              * (NewConsistentHashing (-3) : ConsistentHashing Server).ReplicaCount :=
  ⟨by decide,
    (AddNode_negative_product (NewConsistentHashing (-3))
      ({ demoServer 1 with weight := -2 } : Server) (by decide) (by decide) (by decide)).2.2.1⟩

/-- C19 as written fails: on `NewConsistentHashing(-1)` a server of weight `-2^63`,
the smallest Go `int`, has a negative weight and a negative replica count, but the Go
product wraps to `-2^63`, which is not positive, and `AddNode` adds no position. -/
theorem AddNode_min_int_weight :
    (NewConsistentHashing (-1) : ConsistentHashing Server).ReplicaCount < 0
      ∧ Node.Weight minIntServer < 0
      ∧ Node.Weight minIntServer * (-1) = 9223372036854775808
      ∧ wrapInt (Node.Weight minIntServer
          * (NewConsistentHashing (-1) : ConsistentHashing Server).ReplicaCount)
          = -9223372036854775808
      ∧ (AddNode (NewConsistentHashing (-1)) minIntServer).ring = [] := by
  decide

end ConsistentHashing

namespace ConsistentHashing

variable {N : Type}

/-! ## Rings and mappings of a run, node by node -/

theorem replicaPositions_build [Node N] (repCounts : Int) (nodes : List N) (n : N) :
    replicaPositions (build repCounts nodes) n
      = replicaPositions (NewConsistentHashing repCounts : ConsistentHashing N) n := by
  simp only [replicaPositions, build_ReplicaCount, NewConsistentHashing]

theorem mem_build_ring [Node N] (repCounts : Int) (nodes : List N) (p : Nat) :
    p ∈ (build repCounts nodes).ring
      ↔ ∃ l ∈ nodes.map (replicaPositions (NewConsistentHashing repCounts : ConsistentHashing N)),
          p ∈ l := by
  induction nodes using List.reverseRecOn with
  | nil => simp [build, NewConsistentHashing]
  | append_singleton l a ih =>
    rw [build_snoc, mem_AddNode_ring, ih, replicaPositions_build]
    simp only [List.map_append, List.map_cons, List.map_nil, List.mem_append,
      List.mem_singleton]
    constructor
    · rintro (⟨t, ht, hp⟩ | hp)
      · exact ⟨t, Or.inl ht, hp⟩
      · exact ⟨_, Or.inr rfl, hp⟩
    · rintro ⟨t, ht | rfl, hp⟩
      · exact Or.inl ⟨t, ht, hp⟩
      · exact Or.inr hp

/-- The mapping holds for a position the last node, in the order of insertion, that
hashed to it. -/
theorem build_Nodes_of_split [Node N] (repCounts : Int) (pre post : List N) (n : N) (p : Nat)
    (hp : p ∈ replicaPositions (NewConsistentHashing repCounts : ConsistentHashing N) n)
    (hpost : ∀ m ∈ post,
      p ∉ replicaPositions (NewConsistentHashing repCounts : ConsistentHashing N) m) :
    (build repCounts (pre ++ n :: post)).Nodes p = some n := by
  induction post using List.reverseRecOn with
  | nil =>
    rw [build_snoc, AddNode_Nodes, replicaPositions_build, if_pos hp]
  | append_singleton l a ih =>
    have hsplit : pre ++ n :: (l ++ [a]) = (pre ++ n :: l) ++ [a] := by simp
    rw [hsplit, build_snoc, AddNode_Nodes, replicaPositions_build,
      if_neg (hpost a (by simp))]
    exact ih (fun m hm => hpost m (by simp [hm]))

/-- A lookup read off the table `P` of the positions each node hashed to: the key's
hash `x` has the successor `p`, which the node at index `j` hashed to and no later
node did. -/
theorem GetNode_of_positions [Node N] (repCounts : Int) (nodes : List N) (P : List (List Nat))
    (hP : nodes.map (replicaPositions (NewConsistentHashing repCounts : ConsistentHashing N)) = P)
    (key : GoString) (x p j : Nat) (n : N)
    (hx : ChecksumIEEE key = x)
    (hn : nodes[j]? = some n)
    (hpj : p ∈ P.getD j [])
    (hlater : ∀ l ∈ P.drop (j + 1), p ∉ l)
    (hxp : x ≤ p)
    (hmin : ∀ l ∈ P, ∀ q ∈ l, x ≤ q → p ≤ q) :
    GetNode (build repCounts nodes) key = .ok (some n) := by
  subst hP
  obtain ⟨hj, hnj⟩ := List.getElem?_eq_some.mp hn
  have hpn : p ∈ replicaPositions (NewConsistentHashing repCounts : ConsistentHashing N) n := by
    rw [List.getD_eq_getElem?_getD, List.getElem?_map, hn] at hpj
    simpa using hpj
  have hsplit : nodes = nodes.take j ++ n :: nodes.drop (j + 1) := by
    rw [← hnj, ← List.drop_eq_getElem_cons hj, List.take_append_drop]
  have hNodes : (build repCounts nodes).Nodes p = some n := by
    rw [hsplit]
    apply build_Nodes_of_split _ _ _ _ _ hpn
    intro m hm
    exact hlater _ (by rw [← List.map_drop]; exact List.mem_map_of_mem _ hm)
  have hmem : p ∈ (build repCounts nodes).ring :=
    (mem_build_ring _ _ _).mpr ⟨_, List.mem_map_of_mem _ (by rw [← hnj]; exact List.getElem_mem _), hpn⟩
  obtain ⟨q, hq, hget⟩ := GetNode_sorted (build repCounts nodes) key
    (build_ring_sorted _ _) (List.ne_nil_of_mem hmem)
  have hsucc : IsSuccessor (build repCounts nodes).ring (ChecksumIEEE key) p := by
    refine ⟨hmem, Or.inl ⟨by rw [hx]; exact hxp, ?_⟩⟩
    intro t ht hxt
    obtain ⟨l, hl, htl⟩ := (mem_build_ring _ _ _).mp ht
    exact hmin l hl t htl (by rw [← hx]; exact hxt)
  rw [hget, IsSuccessor_unique hq hsucc, hNodes]

/-- On a non-empty ring of a run every lookup returns one of the nodes of the run. -/
theorem GetNode_build_mem [Node N] (repCounts : Int) (nodes : List N) (key : GoString)
    (hne : (build repCounts nodes).ring ≠ []) :
    ∃ n ∈ nodes, GetNode (build repCounts nodes) key = .ok (some n) := by
  obtain ⟨p, hp, hget⟩ := GetNode_sorted (build repCounts nodes) key
    (build_ring_sorted repCounts nodes) hne
  obtain ⟨n, hn, hnp⟩ := (build_Nodes repCounts nodes p).1 hp.1
  exact ⟨n, hn, by rw [hget, hnp]⟩

end ConsistentHashing

namespace ConsistentHashing

set_option maxHeartbeats 0 in
theorem demoPositions_eq :
    demoServers.map (replicaPositions (NewConsistentHashing 100 : ConsistentHashing Server))
      = demoPositions := by
  decide!

end ConsistentHashing

namespace ConsistentHashing

/-! ## The run of `main` -/

theorem demo_lookup_1 :
    GetNode (build 100 demoServers) (demoKey 4) = .ok (some (demoServer 1)) :=
  GetNode_of_positions 100 demoServers demoPositions demoPositions_eq (demoKey 4)
    1157068924 1160354774 0 (demoServer 1) (by decide) (by decide) (by decide!) (by decide!)
    (by decide) (by decide!)

theorem demo_lookup_2 :
    GetNode (build 100 demoServers) (demoKey 28) = .ok (some (demoServer 2)) :=
  GetNode_of_positions 100 demoServers demoPositions demoPositions_eq (demoKey 28)
    4121770746 4123144007 1 (demoServer 2) (by decide) (by decide) (by decide!) (by decide!)
    (by decide) (by decide!)

theorem demo_lookup_3 :
    GetNode (build 100 demoServers) (demoKey 48) = .ok (some (demoServer 3)) :=
  GetNode_of_positions 100 demoServers demoPositions demoPositions_eq (demoKey 48)
    2750913916 2752510488 2 (demoServer 3) (by decide) (by decide) (by decide!) (by decide!)
    (by decide) (by decide!)

theorem demo_lookup_4 :
    GetNode (build 100 demoServers) (demoKey 57) = .ok (some (demoServer 4)) :=
  GetNode_of_positions 100 demoServers demoPositions demoPositions_eq (demoKey 57)
    710128044 717001482 3 (demoServer 4) (by decide) (by decide) (by decide!) (by decide!)
    (by decide) (by decide!)

theorem demo_lookup_5 :
    GetNode (build 100 demoServers) (demoKey 11) = .ok (some (demoServer 5)) :=
  GetNode_of_positions 100 demoServers demoPositions demoPositions_eq (demoKey 11)
    2807878045 2807931552 4 (demoServer 5) (by decide) (by decide) (by decide!) (by decide!)
    (by decide) (by decide!)

theorem demo_lookup_6 :
    GetNode (build 100 demoServers) (demoKey 6) = .ok (some (demoServer 6)) :=
  GetNode_of_positions 100 demoServers demoPositions demoPositions_eq (demoKey 6)
    2868451664 2873728122 5 (demoServer 6) (by decide) (by decide) (by decide!) (by decide!)
    (by decide) (by decide!)

theorem demo_lookup_7 :
    GetNode (build 100 demoServers) (demoKey 15) = .ok (some (demoServer 7)) :=
  GetNode_of_positions 100 demoServers demoPositions demoPositions_eq (demoKey 15)
    2687571332 2692991729 6 (demoServer 7) (by decide) (by decide) (by decide!) (by decide!)
    (by decide) (by decide!)

theorem demo_lookup_8 :
    GetNode (build 100 demoServers) (demoKey 140) = .ok (some (demoServer 8)) :=
  GetNode_of_positions 100 demoServers demoPositions demoPositions_eq (demoKey 140)
    129341516 130075551 7 (demoServer 8) (by decide) (by decide) (by decide!) (by decide!)
    (by decide) (by decide!)

theorem demo_lookup_9 :
    GetNode (build 100 demoServers) (demoKey 0) = .ok (some (demoServer 9)) :=
  GetNode_of_positions 100 demoServers demoPositions demoPositions_eq (demoKey 0)
    1134214245 1135391742 8 (demoServer 9) (by decide) (by decide) (by decide!) (by decide!)
    (by decide) (by decide!)

theorem demo_lookup_10 :
    GetNode (build 100 demoServers) (demoKey 421) = .ok (some (demoServer 10)) :=
  GetNode_of_positions 100 demoServers demoPositions demoPositions_eq (demoKey 421)
    539217335 545391743 9 (demoServer 10) (by decide) (by decide) (by decide!) (by decide!)
    (by decide) (by decide!)

theorem demo_lookup_11 :
    GetNode (build 100 demoServers) (demoKey 88) = .ok (some (demoServer 11)) :=
  GetNode_of_positions 100 demoServers demoPositions demoPositions_eq (demoKey 88)
    256037488 257125426 10 (demoServer 11) (by decide) (by decide) (by decide!) (by decide!)
    (by decide) (by decide!)

theorem demo_lookup_12 :
    GetNode (build 100 demoServers) (demoKey 108) = .ok (some (demoServer 12)) :=
  GetNode_of_positions 100 demoServers demoPositions demoPositions_eq (demoKey 108)
    1828902266 1839707992 11 (demoServer 12) (by decide) (by decide) (by decide!) (by decide!)
    (by decide) (by decide!)

theorem demo_lookup_13 :
    GetNode (build 100 demoServers) (demoKey 55) = .ok (some (demoServer 13)) :=
  GetNode_of_positions 100 demoServers demoPositions demoPositions_eq (demoKey 55)
    3294482560 3297251495 12 (demoServer 13) (by decide) (by decide) (by decide!) (by decide!)
    (by decide) (by decide!)

theorem demo_lookup_14 :
    GetNode (build 100 demoServers) (demoKey 235) = .ok (some (demoServer 14)) :=
  GetNode_of_positions 100 demoServers demoPositions demoPositions_eq (demoKey 235)
    987251805 991108948 13 (demoServer 14) (by decide) (by decide) (by decide!) (by decide!)
    (by decide) (by decide!)

theorem demo_lookup_15 :
    GetNode (build 100 demoServers) (demoKey 10) = .ok (some (demoServer 15)) :=
  GetNode_of_positions 100 demoServers demoPositions demoPositions_eq (demoKey 10)
    3495682315 3498546827 14 (demoServer 15) (by decide) (by decide) (by decide!) (by decide!)
    (by decide) (by decide!)

theorem demo_lookup_16 :
    GetNode (build 100 demoServers) (demoKey 8) = .ok (some (demoServer 16)) :=
  GetNode_of_positions 100 demoServers demoPositions demoPositions_eq (demoKey 8)
    1296118871 1297169143 15 (demoServer 16) (by decide) (by decide) (by decide!) (by decide!)
    (by decide) (by decide!)

theorem demo_lookup_17 :
    GetNode (build 100 demoServers) (demoKey 64) = .ok (some (demoServer 17)) :=
  GetNode_of_positions 100 demoServers demoPositions demoPositions_eq (demoKey 64)
    2557981653 2558549657 16 (demoServer 17) (by decide) (by decide) (by decide!) (by decide!)
    (by decide) (by decide!)

theorem demo_lookup_18 :
    GetNode (build 100 demoServers) (demoKey 84) = .ok (some (demoServer 18)) :=
  GetNode_of_positions 100 demoServers demoPositions demoPositions_eq (demoKey 84)
    116694619 118312771 17 (demoServer 18) (by decide) (by decide) (by decide!) (by decide!)
    (by decide) (by decide!)

theorem demo_lookup_19 :
    GetNode (build 100 demoServers) (demoKey 5) = .ok (some (demoServer 19)) :=
  GetNode_of_positions 100 demoServers demoPositions demoPositions_eq (demoKey 5)
    871385322 873105875 18 (demoServer 19) (by decide) (by decide) (by decide!) (by decide!)
    (by decide) (by decide!)

theorem demoServers_eq :
    demoServers = [demoServer 1, demoServer 2, demoServer 3, demoServer 4, demoServer 5, demoServer 6, demoServer 7, demoServer 8, demoServer 9, demoServer 10, demoServer 11, demoServer 12, demoServer 13, demoServer 14, demoServer 15, demoServer 16, demoServer 17, demoServer 18, demoServer 19] := by
  decide

theorem demo_lookups :
    ∀ s ∈ demoServers, ∃ i ∈ List.range 1000,
      GetNode (build 100 demoServers) (demoKey i) = .ok (some s) := by
  intro s hs
  rw [demoServers_eq] at hs
  simp only [List.mem_cons, List.mem_singleton, List.not_mem_nil, or_false] at hs
  rcases hs with rfl | rfl | rfl | rfl | rfl | rfl | rfl | rfl | rfl | rfl | rfl | rfl | rfl | rfl | rfl | rfl | rfl | rfl | rfl
  · exact ⟨4, List.mem_range.mpr (by decide), demo_lookup_1⟩
  · exact ⟨28, List.mem_range.mpr (by decide), demo_lookup_2⟩
  · exact ⟨48, List.mem_range.mpr (by decide), demo_lookup_3⟩
  · exact ⟨57, List.mem_range.mpr (by decide), demo_lookup_4⟩
  · exact ⟨11, List.mem_range.mpr (by decide), demo_lookup_5⟩
  · exact ⟨6, List.mem_range.mpr (by decide), demo_lookup_6⟩
  · exact ⟨15, List.mem_range.mpr (by decide), demo_lookup_7⟩
  · exact ⟨140, List.mem_range.mpr (by decide), demo_lookup_8⟩
  · exact ⟨0, List.mem_range.mpr (by decide), demo_lookup_9⟩
  · exact ⟨421, List.mem_range.mpr (by decide), demo_lookup_10⟩
  · exact ⟨88, List.mem_range.mpr (by decide), demo_lookup_11⟩
  · exact ⟨108, List.mem_range.mpr (by decide), demo_lookup_12⟩
  · exact ⟨55, List.mem_range.mpr (by decide), demo_lookup_13⟩
  · exact ⟨235, List.mem_range.mpr (by decide), demo_lookup_14⟩
  · exact ⟨10, List.mem_range.mpr (by decide), demo_lookup_15⟩
  · exact ⟨8, List.mem_range.mpr (by decide), demo_lookup_16⟩
  · exact ⟨64, List.mem_range.mpr (by decide), demo_lookup_17⟩
  · exact ⟨84, List.mem_range.mpr (by decide), demo_lookup_18⟩
  · exact ⟨5, List.mem_range.mpr (by decide), demo_lookup_19⟩

end ConsistentHashing

namespace ConsistentHashing

theorem bump_keys (m : List (GoString × Nat)) (ip k : GoString) :
    k ∈ (bump m ip).map Prod.fst ↔ k ∈ m.map Prod.fst ∨ k = ip := by
  induction m with
  | nil => simp [bump]
  | cons e m ih =>
    obtain ⟨a, v⟩ := e
    unfold bump
    by_cases h : a = ip
    · subst h
      simp only [if_true, List.map_cons, List.mem_cons]
      tauto
    · simp only [h, if_false, List.map_cons, List.mem_cons, ih]
      tauto

theorem bump_nodup (m : List (GoString × Nat)) (ip : GoString)
    (h : (m.map Prod.fst).Nodup) : ((bump m ip).map Prod.fst).Nodup := by
  induction m with
  | nil => simp [bump]
  | cons e m ih =>
    obtain ⟨a, v⟩ := e
    simp only [List.map_cons, List.nodup_cons] at h
    unfold bump
    by_cases hk : a = ip
    · simp only [hk, if_true, List.map_cons, List.nodup_cons]
      rw [← hk]
      exact h
    · simp only [hk, if_false, List.map_cons, List.nodup_cons]
      refine ⟨?_, ih h.2⟩
      intro hmem
      rcases (bump_keys m ip a).mp hmem with h1 | h1
      · exact h.1 h1
      · exact hk h1

theorem bump_pos (m : List (GoString × Nat)) (ip : GoString)
    (h : ∀ e ∈ m, 0 < e.2) : ∀ e ∈ bump m ip, 0 < e.2 := by
  induction m with
  | nil => simp [bump]
  | cons e m ih =>
    obtain ⟨a, v⟩ := e
    unfold bump
    by_cases hk : a = ip
    · simp only [hk, if_true, List.mem_cons]
      rintro e (rfl | he)
      · simp
      · exact h e (List.mem_cons_of_mem _ he)
    · simp only [hk, if_false, List.mem_cons]
      rintro e (rfl | he)
      · exact h _ (List.mem_cons_self _ _)
      · exact ih (fun e he => h e (List.mem_cons_of_mem _ he)) e he

theorem bump_sum (m : List (GoString × Nat)) (ip : GoString) :
    ((bump m ip).map Prod.snd).sum = (m.map Prod.snd).sum + 1 := by
  induction m with
  | nil => simp [bump]
  | cons e m ih =>
    obtain ⟨a, v⟩ := e
    unfold bump
    by_cases hk : a = ip
    · simp only [hk, if_true, List.map_cons, List.sum_cons]
      omega
    · simp only [hk, if_false, List.map_cons, List.sum_cons, ih]
      omega

/-- When every lookup returns a server, the loop of `main` ends with a map of distinct
keys and positive counts, one more in total for each key tallied, whose keys are the
old ones and the `Ip`s of the servers returned. -/
theorem tallyLoop_spec (ch : ConsistentHashing Server)
    (hcov : ∀ i, ∃ s, GetNode ch (demoKey i) = .ok (some s)) :
    ∀ (keys : List Nat) (m : List (GoString × Nat)),
      (m.map Prod.fst).Nodup → (∀ e ∈ m, 0 < e.2) →
      ∃ m1, tallyLoop ch keys m = some m1
        ∧ (m1.map Prod.fst).Nodup ∧ (∀ e ∈ m1, 0 < e.2)
        ∧ (m1.map Prod.snd).sum = (m.map Prod.snd).sum + keys.length
        ∧ ∀ k, k ∈ m1.map Prod.fst
            ↔ k ∈ m.map Prod.fst
              ∨ ∃ i ∈ keys, ∃ s, GetNode ch (demoKey i) = .ok (some s) ∧ s.Ip = k := by
  intro keys
  induction keys with
  | nil =>
    intro m hnd hpos
    exact ⟨m, rfl, hnd, hpos, by simp, by simp⟩
  | cons i rest ih =>
    intro m hnd hpos
    obtain ⟨s, hs⟩ := hcov i
    obtain ⟨m1, hrun, hnd1, hpos1, hsum1, hkeys1⟩ :=
      ih (bump m s.Ip) (bump_nodup m s.Ip hnd) (bump_pos m s.Ip hpos)
    refine ⟨m1, ?_, hnd1, hpos1, ?_, ?_⟩
    · simp only [tallyLoop, hs]
      exact hrun
    · rw [hsum1, bump_sum, List.length_cons]
      omega
    · intro k
      rw [hkeys1, bump_keys]
      constructor
      · rintro ((h | h) | ⟨i1, hi1, s1, hs1, hk⟩)
        · exact Or.inl h
        · exact Or.inr ⟨i, List.mem_cons_self _ _, s, hs, h.symm⟩
        · exact Or.inr ⟨i1, List.mem_cons_of_mem _ hi1, s1, hs1, hk⟩
      · rintro (h | ⟨i1, hi1, s1, hs1, hk⟩)
        · exact Or.inl (Or.inl h)
        · rcases List.mem_cons.mp hi1 with rfl | hi1
          · rw [hs] at hs1
            have hss : s = s1 := by simpa using hs1
            exact Or.inl (Or.inr (by rw [hss, hk]))
          · exact Or.inr ⟨i1, hi1, s1, hs1, hk⟩

/-- C15 (the run of `main`): with `NewConsistentHashing(100)` and the 19 servers of
weight 1, ids 1 to 19, added in order, resolving the 1000 keys `ke123456y0` to
`ke123456y999` ends without a panic, and tallying by the `Ip` of the server returned
gives exactly 19 buckets, one for each server, each non-empty, whose counts sum to
exactly 1000. -/
theorem demoTally_buckets :
    ∃ ipMap, demoTally = some ipMap
      ∧ ipMap.length = 19
      ∧ (∀ e ∈ ipMap, 0 < e.2)
      ∧ (ipMap.map Prod.snd).sum = 1000
      ∧ (ipMap.map Prod.fst).Nodup
      ∧ ∀ s ∈ demoServers, s.Ip ∈ ipMap.map Prod.fst := by
  have hne : (build 100 demoServers).ring ≠ [] := by
    intro hnil
    have h1 := demo_lookup_1
    rw [GetNode_of_ring_nil _ _ hnil] at h1
    exact absurd h1 (by simp)
  have hcov : ∀ i, ∃ s, GetNode (build 100 demoServers) (demoKey i) = .ok (some s) := by
    intro i
    obtain ⟨s, _, hs⟩ := GetNode_build_mem 100 demoServers (demoKey i) hne
    exact ⟨s, hs⟩
  obtain ⟨m1, hrun, hnd, hpos, hsum, hkeys⟩ :=
    tallyLoop_spec (build 100 demoServers) hcov (List.range 1000) [] (by simp) (by simp)
  have hmem : ∀ k, k ∈ m1.map Prod.fst ↔ k ∈ demoServers.map Server.Ip := by
    intro k
    rw [hkeys k]
    constructor
    · rintro (h | ⟨i, _, s, hs, hk⟩)
      · simp at h
      · obtain ⟨s1, hs1, hg⟩ := GetNode_build_mem 100 demoServers (demoKey i) hne
        rw [hs] at hg
        have hss : s = s1 := by simpa using hg
        rw [← hk, hss]
        exact List.mem_map_of_mem _ hs1
    · intro h
      obtain ⟨s, hs, hk⟩ := List.mem_map.mp h
      obtain ⟨i, hi, hg⟩ := demo_lookups s hs
      exact Or.inr ⟨i, hi, s, hg, hk⟩
  have hnd2 : (demoServers.map Server.Ip).Nodup := by decide
  have hperm : (m1.map Prod.fst).Perm (demoServers.map Server.Ip) :=
    (List.perm_ext_iff_of_nodup hnd hnd2).mpr hmem
  refine ⟨m1, hrun, ?_, hpos, ?_, hnd, ?_⟩
  · have hlen := hperm.length_eq
    rw [List.length_map] at hlen
    rw [hlen]
    decide
  · rw [hsum]
    simp
  · intro s hs
    exact (hmem _).mpr (List.mem_map_of_mem _ hs)

end ConsistentHashing
